import Mathlib

/-!
Verification of the MySqlBackup repository core subsystems against its
specification.  All definitions are shallow embeddings of the Go source:

* `src/internal/retention/retention.go` and the window-based retention
  package (`Classify`, `Apply` with its four keep-sets),
* `src/internal/backup/backup.go` (`safeWriteZIPStreaming`, `recoverSavFiles`),
* the user-SQL parser (`parseUserRecords`, `ParseUserSQL`),
* the remote sync engine (`Sync`, `streamEncryptUpload`, `getOneFile`).

Dates are embedded as absolute day numbers (days since 1970-01-01), which is
Go `time.Time`'s own representation of instants (midnight, fixed zone).
Civil (year, month, day) conversion follows the standard proleptic-Gregorian
algorithm computed by Go's `time` package; `AddDate(y, m, d)` is
`Date(year+y, month+m, day+d)` with Go's normalization.
-/

/-- A civil calendar date: year, month (1-12 when normalized), day. -/
structure Civil where
  y : Int
  m : Int
  d : Int
deriving DecidableEq, Repr

/-- Absolute day number (days since 1970-01-01) of a civil date whose month
is already in `[1, 12]`.  This is the standard proleptic-Gregorian
conversion used (in equivalent form) inside Go's `time` package. -/
def daysFromCivil (y m d : Int) : Int :=
  let y2 := y - (if m ≤ 2 then 1 else 0)
  let era := y2 / 400
  let yoe := y2 - era * 400
  let mp := if 2 < m then m - 3 else m + 9
  let doy := (153 * mp + 2) / 5 + d - 1
  let doe := yoe * 365 + yoe / 4 - yoe / 100 + doy
  era * 146097 + doe - 719468

/-- Civil date of an absolute day number (inverse of `daysFromCivil`). -/
def civilFromDays (n : Int) : Civil :=
  let z := n + 719468
  let era := z / 146097
  let doe := z - era * 146097
  let yoe := (doe - doe / 1460 + doe / 36524 - doe / 146096) / 365
  let y := yoe + era * 400
  let doy := doe - (365 * yoe + yoe / 4 - yoe / 100)
  let mp := (5 * doy + 2) / 153
  let d := doy - (153 * mp + 2) / 5 + 1
  let m := if mp < 10 then mp + 3 else mp - 9
  ⟨y + (if m ≤ 2 then 1 else 0), m, d⟩

/-- Gregorian leap-year test (as in Go `time.isLeap`). -/
def isLeapYear (y : Int) : Prop := (y % 4 = 0 ∧ y % 100 ≠ 0) ∨ y % 400 = 0

instance isLeapYear.instDecidable (y : Int) : Decidable (isLeapYear y) := by
  unfold isLeapYear; infer_instance

/-- Days in a month of a given year (as tabulated in Go `time`). -/
def daysInMonth (y m : Int) : Int :=
  if m = 2 then (if isLeapYear y then 29 else 28)
  else if m = 4 ∨ m = 6 ∨ m = 9 ∨ m = 11 then 30
  else 31

/-- Year of a day number. -/
def yearOf (n : Int) : Int := (civilFromDays n).y

/-- Month of a day number. -/
def monthOf (n : Int) : Int := (civilFromDays n).m

/-- Day-of-month of a day number. -/
def dayOf (n : Int) : Int := (civilFromDays n).d

/-- Go `time.Weekday` of a day number: `0` = Sunday … `6` = Saturday
(1970-01-01 was a Thursday, weekday 4). -/
def weekday (n : Int) : Int := (n + 4) % 7

/-- Go `time.Date(y, m, d, 0,0,0,0, zone)` as a day number: the month is
normalized into `[1, 12]` (rolling the year), then `d - 1` days are added to
the first of that month.  This is exactly Go's `norm`/`Date` semantics and
also handles out-of-range days. -/
def goDate (y m d : Int) : Int :=
  let yAdj := y + (m - 1) / 12
  let mAdj := (m - 1) % 12 + 1
  daysFromCivil yAdj mAdj 1 + (d - 1)

/-- Go `t.AddDate(yy, mm, dd)` on a day number `n`:
`Date(year+yy, month+mm, day+dd)`. -/
def addDate (n yy mm dd : Int) : Int :=
  goDate ((civilFromDays n).y + yy) ((civilFromDays n).m + mm)
    ((civilFromDays n).d + dd)

-- ### Correctness of the civil-date conversion

set_option maxHeartbeats 1000000 in
theorem yoe_bounds (doe : Int) (h0 : 0 ≤ doe) (h1 : doe ≤ 146096) :
    0 ≤ (doe - doe / 1460 + doe / 36524 - doe / 146096) / 365 ∧
    (doe - doe / 1460 + doe / 36524 - doe / 146096) / 365 ≤ 399 ∧
    365 * ((doe - doe / 1460 + doe / 36524 - doe / 146096) / 365)
      + ((doe - doe / 1460 + doe / 36524 - doe / 146096) / 365) / 4
      - ((doe - doe / 1460 + doe / 36524 - doe / 146096) / 365) / 100 ≤ doe ∧
    doe - (365 * ((doe - doe / 1460 + doe / 36524 - doe / 146096) / 365)
      + ((doe - doe / 1460 + doe / 36524 - doe / 146096) / 365) / 4
      - ((doe - doe / 1460 + doe / 36524 - doe / 146096) / 365) / 100) ≤ 365 := by
  have hb : 0 ≤ (doe - doe / 1460 + doe / 36524 - doe / 146096) / 365 ∧
      (doe - doe / 1460 + doe / 36524 - doe / 146096) / 365 ≤ 399 := by omega
  have hd : ((doe - doe / 1460 + doe / 36524 - doe / 146096) / 365) / 100 = 0 ∨
      ((doe - doe / 1460 + doe / 36524 - doe / 146096) / 365) / 100 = 1 ∨
      ((doe - doe / 1460 + doe / 36524 - doe / 146096) / 365) / 100 = 2 ∨
      ((doe - doe / 1460 + doe / 36524 - doe / 146096) / 365) / 100 = 3 := by
    omega
  have hg : doe / 146096 = 0 ∨ doe / 146096 = 1 := by omega
  rcases hd with hd|hd|hd|hd <;> rcases hg with hg|hg <;> omega

set_option maxHeartbeats 1000000 in
theorem daysFromCivil_civilFromDays_aux (n z era doe yoe doy mp d0 m0 y0 : Int)
    (hz : z = n + 719468)
    (hera : era = z / 146097)
    (hdoe : doe = z - era * 146097)
    (hyoe : yoe = (doe - doe / 1460 + doe / 36524 - doe / 146096) / 365)
    (hdoy : doy = doe - (365 * yoe + yoe / 4 - yoe / 100))
    (hmp : mp = (5 * doy + 2) / 153)
    (hd0 : d0 = doy - (153 * mp + 2) / 5 + 1)
    (hm0 : m0 = if mp < 10 then mp + 3 else mp - 9)
    (hy0 : y0 = yoe + era * 400 + (if m0 ≤ 2 then 1 else 0)) :
    daysFromCivil y0 m0 d0 = n := by
  subst hd0
  subst hm0
  subst hy0
  unfold daysFromCivil
  dsimp only
  have hdoeb : 0 ≤ doe ∧ doe ≤ 146096 := by omega
  have hyb := yoe_bounds doe hdoeb.1 hdoeb.2
  rw [← hyoe] at hyb
  have e1 : (yoe + era * 400) / 400 = era := by omega
  have e2 : ((yoe + era * 400) - ((yoe + era * 400) / 400) * 400) / 4 = yoe / 4 := by
    rw [e1]; omega
  have e3 : ((yoe + era * 400) - ((yoe + era * 400) / 400) * 400) / 100 = yoe / 100 := by
    rw [e1]; omega
  have hmpb : 0 ≤ mp ∧ mp ≤ 11 := by omega
  split_ifs <;> simp only [add_sub_cancel_right, add_zero, sub_zero] <;> omega

/-- `daysFromCivil` is a left inverse of `civilFromDays`: converting a day
number to its civil date and back is the identity, for every `n : Int`. -/
theorem daysFromCivil_civilFromDays (n : Int) :
    daysFromCivil (civilFromDays n).y (civilFromDays n).m (civilFromDays n).d = n := by
  exact daysFromCivil_civilFromDays_aux n _ _ _ _ _ _ _ _ _
    rfl rfl rfl rfl rfl rfl rfl rfl rfl

/-- `civilFromDays` is injective. -/
theorem civilFromDays_injective (a b : Int) (h : civilFromDays a = civilFromDays b) :
    a = b := by
  have ha := daysFromCivil_civilFromDays a
  have hb := daysFromCivil_civilFromDays b
  rw [h] at ha
  omega

set_option maxHeartbeats 4000000 in
theorem yoe_sharp (doe : Int) (h0 : 0 ≤ doe) (h1 : doe ≤ 146096) :
    doe - (365 * ((doe - doe / 1460 + doe / 36524 - doe / 146096) / 365)
      + ((doe - doe / 1460 + doe / 36524 - doe / 146096) / 365) / 4
      - ((doe - doe / 1460 + doe / 36524 - doe / 146096) / 365) / 100) ≤ 364 +
      (if ((doe - doe / 1460 + doe / 36524 - doe / 146096) / 365 + 1) % 4 = 0 ∧
          (((doe - doe / 1460 + doe / 36524 - doe / 146096) / 365 + 1) % 100 ≠ 0 ∨
            (doe - doe / 1460 + doe / 36524 - doe / 146096) / 365 = 399) then 1 else 0) := by
  have hb : 0 ≤ (doe - doe / 1460 + doe / 36524 - doe / 146096) / 365 ∧
      (doe - doe / 1460 + doe / 36524 - doe / 146096) / 365 ≤ 399 := by omega
  have hd : ((doe - doe / 1460 + doe / 36524 - doe / 146096) / 365) / 100 = 0 ∨
      ((doe - doe / 1460 + doe / 36524 - doe / 146096) / 365) / 100 = 1 ∨
      ((doe - doe / 1460 + doe / 36524 - doe / 146096) / 365) / 100 = 2 ∨
      ((doe - doe / 1460 + doe / 36524 - doe / 146096) / 365) / 100 = 3 := by
    omega
  have hg : doe / 146096 = 0 ∨ doe / 146096 = 1 := by omega
  have r4 : (doe - doe / 1460 + doe / 36524 - doe / 146096) / 365 % 4 = 0 ∨
      (doe - doe / 1460 + doe / 36524 - doe / 146096) / 365 % 4 = 1 ∨
      (doe - doe / 1460 + doe / 36524 - doe / 146096) / 365 % 4 = 2 ∨
      (doe - doe / 1460 + doe / 36524 - doe / 146096) / 365 % 4 = 3 := by omega
  split_ifs with hc <;>
    rcases hd with hd|hd|hd|hd <;> rcases hg with hg|hg <;> rcases r4 with r|r|r|r <;>
    omega

set_option maxHeartbeats 2000000 in
theorem yoe_rev (yoe doy doe : Int) (hy0 : 0 ≤ yoe) (hy1 : yoe ≤ 399)
    (hd0 : 0 ≤ doy)
    (hd1 : doy ≤ 364 + (if (yoe + 1) % 4 = 0 ∧ ((yoe + 1) % 100 ≠ 0 ∨ yoe = 399) then 1 else 0))
    (hdoe : doe = yoe * 365 + yoe / 4 - yoe / 100 + doy) :
    (doe - doe / 1460 + doe / 36524 - doe / 146096) / 365 = yoe := by
  have h100 : yoe / 100 = 0 ∨ yoe / 100 = 1 ∨ yoe / 100 = 2 ∨ yoe / 100 = 3 := by omega
  have h146 : doe / 146096 = 0 ∨ doe / 146096 = 1 := by omega
  have e1 : doe / 1460 = yoe / 4 ∨ doe / 1460 = yoe / 4 + 1 := by omega
  have e2 : doe / 36524 = yoe / 100 ∨ doe / 36524 = yoe / 100 + 1 := by omega
  have r4 : yoe % 4 = 0 ∨ yoe % 4 = 1 ∨ yoe % 4 = 2 ∨ yoe % 4 = 3 := by omega
  split_ifs at hd1 <;> rcases h100 with h|h|h|h <;> rcases h146 with h2|h2 <;>
    rcases e1 with e1|e1 <;> rcases e2 with e2|e2 <;> rcases r4 with r|r|r|r <;> omega

set_option maxHeartbeats 4000000 in
theorem civilFromDays_daysFromCivil_aux
    (y m d y2 era yoe mp doy doe n : Int)
    (hm1 : 1 ≤ m) (hm2 : m ≤ 12) (hd1 : 1 ≤ d) (hd2 : d ≤ daysInMonth y m)
    (hy2 : y2 = y - (if m ≤ 2 then 1 else 0))
    (hera : era = y2 / 400)
    (hyoe : yoe = y2 - era * 400)
    (hmp : mp = if 2 < m then m - 3 else m + 9)
    (hdoy : doy = (153 * mp + 2) / 5 + d - 1)
    (hdoe : doe = yoe * 365 + yoe / 4 - yoe / 100 + doy)
    (hn : n = era * 146097 + doe - 719468) :
    civilFromDays n = ⟨y, m, d⟩ := by
  have hyoeb : 0 ≤ yoe ∧ yoe ≤ 399 := by omega
  have hmpb : (2 < m ∧ mp = m - 3) ∨ (¬ 2 < m ∧ mp = m + 9) := by
    split_ifs at hmp <;> omega
  have hdoyb : 0 ≤ doy ∧
      doy ≤ 364 + (if (yoe + 1) % 4 = 0 ∧ ((yoe + 1) % 100 ≠ 0 ∨ yoe = 399) then 1 else 0) := by
    have hm12 : m = 1 ∨ m = 2 ∨ m = 3 ∨ m = 4 ∨ m = 5 ∨ m = 6 ∨ m = 7 ∨ m = 8 ∨
        m = 9 ∨ m = 10 ∨ m = 11 ∨ m = 12 := by omega
    unfold daysInMonth at hd2
    rcases hm12 with h|h|h|h|h|h|h|h|h|h|h|h <;> subst h <;>
      simp only [isLeapYear] at hd2 <;> norm_num at hd2 hmp ⊢ <;>
      split_ifs at hd2 hy2 ⊢ <;> omega
  have hdoeb : 0 ≤ doe ∧ doe ≤ 146096 := by
    split_ifs at hdoyb <;> omega
  have hYR : (doe - doe / 1460 + doe / 36524 - doe / 146096) / 365 = yoe :=
    yoe_rev yoe doy doe hyoeb.1 hyoeb.2 hdoyb.1 hdoyb.2 hdoe
  have hMP : (5 * (doe - (365 * yoe + yoe / 4 - yoe / 100)) + 2) / 153 = mp := by
    have hdoy2 : doe - (365 * yoe + yoe / 4 - yoe / 100) = doy := by omega
    rw [hdoy2]
    have hm12 : m = 1 ∨ m = 2 ∨ m = 3 ∨ m = 4 ∨ m = 5 ∨ m = 6 ∨ m = 7 ∨ m = 8 ∨
        m = 9 ∨ m = 10 ∨ m = 11 ∨ m = 12 := by omega
    unfold daysInMonth at hd2
    rcases hmpb with ⟨hc, he⟩ | ⟨hc, he⟩ <;>
      rcases hm12 with h|h|h|h|h|h|h|h|h|h|h|h <;> subst h <;>
      first
      | omega
      | (norm_num at he hd2 ⊢ <;> first | omega | (split_ifs at hd2 <;> omega))
  unfold civilFromDays
  dsimp only
  rw [show n + 719468 = era * 146097 + doe from by omega]
  rw [show (era * 146097 + doe) / 146097 = era from by omega]
  rw [show era * 146097 + doe - era * 146097 = doe from by ring]
  rw [hYR, hMP]
  rw [show doe - (365 * yoe + yoe / 4 - yoe / 100) - (153 * mp + 2) / 5 + 1 = d from by omega]
  rw [show (if mp < 10 then mp + 3 else mp - 9) = m from by
    rcases hmpb with ⟨hc, he⟩ | ⟨hc, he⟩ <;> split_ifs <;> omega]
  rw [show yoe + era * 400 + (if m ≤ 2 then 1 else 0) = y from by
    split_ifs at hy2 ⊢ <;> omega]

/-- `civilFromDays` is a right inverse of `daysFromCivil` on valid civil
dates (month in `[1, 12]`, day in `[1, daysInMonth]`). -/
theorem civilFromDays_daysFromCivil (y m d : Int)
    (hm1 : 1 ≤ m) (hm2 : m ≤ 12) (hd1 : 1 ≤ d) (hd2 : d ≤ daysInMonth y m) :
    civilFromDays (daysFromCivil y m d) = ⟨y, m, d⟩ := by
  exact civilFromDays_daysFromCivil_aux y m d _ _ _ _ _ _ _
    hm1 hm2 hd1 hd2 rfl rfl rfl rfl rfl rfl rfl

set_option maxHeartbeats 8000000 in
theorem civil_valid_aux (n z era doe yoe doy mp d0 m0 y0 : Int)
    (hz : z = n + 719468)
    (hera : era = z / 146097)
    (hdoe : doe = z - era * 146097)
    (hyoe : yoe = (doe - doe / 1460 + doe / 36524 - doe / 146096) / 365)
    (hdoy : doy = doe - (365 * yoe + yoe / 4 - yoe / 100))
    (hmp : mp = (5 * doy + 2) / 153)
    (hd0 : d0 = doy - (153 * mp + 2) / 5 + 1)
    (hm0 : m0 = if mp < 10 then mp + 3 else mp - 9)
    (hy0 : y0 = yoe + era * 400 + (if m0 ≤ 2 then 1 else 0)) :
    1 ≤ m0 ∧ m0 ≤ 12 ∧ 1 ≤ d0 ∧ d0 ≤ daysInMonth y0 m0 := by
  have hdoeb : 0 ≤ doe ∧ doe ≤ 146096 := by omega
  have hyb := yoe_bounds doe hdoeb.1 hdoeb.2
  rw [← hyoe] at hyb
  have hsharp := yoe_sharp doe hdoeb.1 hdoeb.2
  rw [← hyoe] at hsharp
  have hmpb : 0 ≤ mp ∧ mp ≤ 11 := by omega
  have hm12 : mp = 0 ∨ mp = 1 ∨ mp = 2 ∨ mp = 3 ∨ mp = 4 ∨ mp = 5 ∨ mp = 6 ∨
      mp = 7 ∨ mp = 8 ∨ mp = 9 ∨ mp = 10 ∨ mp = 11 := by omega
  unfold daysInMonth
  unfold isLeapYear
  rcases hm12 with h|h|h|h|h|h|h|h|h|h|h|h <;> subst h <;>
    norm_num at hm0 <;> subst hm0 <;> norm_num at hy0 ⊢ <;>
    split_ifs at hsharp hy0 ⊢ <;> omega

/-- Every `civilFromDays` output is a valid civil date. -/
theorem civil_valid (n : Int) :
    1 ≤ (civilFromDays n).m ∧ (civilFromDays n).m ≤ 12 ∧
    1 ≤ (civilFromDays n).d ∧
    (civilFromDays n).d ≤ daysInMonth (civilFromDays n).y (civilFromDays n).m := by
  exact civil_valid_aux n _ _ _ _ _ _ _ _ _
    rfl rfl rfl rfl rfl rfl rfl rfl rfl

/-- Within one month, day numbers are linear in the day component. -/
theorem daysFromCivil_day_shift (y m d : Int) :
    daysFromCivil y m d = daysFromCivil y m 1 + (d - 1) := by
  unfold daysFromCivil
  dsimp only
  split_ifs <;> omega

set_option maxHeartbeats 2000000 in
theorem daysFromCivil_month_succ (y m : Int) (h1 : 1 ≤ m) (h2 : m ≤ 11) :
    daysFromCivil y m (daysInMonth y m) + 1 = daysFromCivil y (m + 1) 1 := by
  have hm12 : m = 1 ∨ m = 2 ∨ m = 3 ∨ m = 4 ∨ m = 5 ∨ m = 6 ∨ m = 7 ∨ m = 8 ∨
      m = 9 ∨ m = 10 ∨ m = 11 := by omega
  unfold daysFromCivil daysInMonth isLeapYear
  dsimp only
  rcases hm12 with h|h|h|h|h|h|h|h|h|h|h <;> subst h <;> norm_num <;>
    first
    | omega
    | · have h4 : (y - 1 - (y - 1) / 400 * 400) / 4 - (y - y / 400 * 400) / 4 = 0 ∨
          (y - 1 - (y - 1) / 400 * 400) / 4 - (y - y / 400 * 400) / 4 = -1 ∨
          (y - 1 - (y - 1) / 400 * 400) / 4 - (y - y / 400 * 400) / 4 = 99 := by
          omega
        have h5 : (y - 1 - (y - 1) / 400 * 400) / 100 - (y - y / 400 * 400) / 100 = 0 ∨
            (y - 1 - (y - 1) / 400 * 400) / 100 - (y - y / 400 * 400) / 100 = -1 ∨
            (y - 1 - (y - 1) / 400 * 400) / 100 - (y - y / 400 * 400) / 100 = 3 := by
          omega
        split_ifs <;> omega

theorem daysFromCivil_year_succ (y : Int) :
    daysFromCivil y 12 31 + 1 = daysFromCivil (y + 1) 1 1 := by
  unfold daysFromCivil
  norm_num
  omega

/-- For an already-normalized month, `goDate` is plain `daysFromCivil`
(with the day component handled linearly). -/
theorem goDate_eq (y m d : Int) (h1 : 1 ≤ m) (h2 : m ≤ 12) :
    goDate y m d = daysFromCivil y m 1 + (d - 1) := by
  unfold goDate
  dsimp only
  rw [show (m - 1) / 12 = 0 from by omega, show (m - 1) % 12 = m - 1 from by omega]
  rw [show y + 0 = y from by ring, show m - 1 + 1 = m from by ring]

/-- Go's `AddDate(0, 0, k)` on a (midnight, fixed-zone) instant adds exactly
`k` days. -/
theorem addDate_days (n k : Int) : addDate n 0 0 k = n + k := by
  unfold addDate
  obtain ⟨hm1, hm2, hd1, _⟩ := civil_valid n
  rw [show (civilFromDays n).y + 0 = (civilFromDays n).y from by ring,
    show (civilFromDays n).m + 0 = (civilFromDays n).m from by ring]
  rw [goDate_eq _ _ _ hm1 hm2]
  have h := daysFromCivil_civilFromDays n
  rw [daysFromCivil_day_shift] at h
  omega

set_option maxHeartbeats 1000000 in
theorem daysFromCivil_lb (y m d : Int) (hy : 2000 ≤ y)
    (hm1 : 1 ≤ m) (hm2 : m ≤ 12) (hd1 : 1 ≤ d) :
    10957 ≤ daysFromCivil y m d := by
  unfold daysFromCivil
  dsimp only
  split_ifs <;> omega

/-- A day number whose civil year is at least 2000 is at least the day
number of 2000-01-01 (which is 10957). -/
theorem yearOf_2000_lb (n : Int) (h : 2000 ≤ (civilFromDays n).y) : 10957 ≤ n := by
  obtain ⟨hm1, hm2, hd1, _⟩ := civil_valid n
  have hinv := daysFromCivil_civilFromDays n
  have := daysFromCivil_lb (civilFromDays n).y (civilFromDays n).m (civilFromDays n).d
    h hm1 hm2 hd1
  omega

-- ### Retention classifier and window pruner
-- (shallow embedding of the `retention` package: `Classify`, `ListBackups`
-- dates, and the window-based `Apply` with its four keep-sets)

/-- Retention period, as in `retention.Period` (`Daily`, `Weekly`,
`Monthly`, `Yearly`). -/
inductive Period where
  | Daily : Period
  | Weekly : Period
  | Monthly : Period
  | Yearly : Period
deriving DecidableEq, Repr

/-- `isLastDayOfMonth` from the source: the next calendar day is in a
different month. -/
def isLastDayOfMonth (n : Int) : Prop :=
  monthOf (addDate n 0 0 1) ≠ monthOf n

instance isLastDayOfMonth.instDecidable (n : Int) : Decidable (isLastDayOfMonth n) := by
  unfold isLastDayOfMonth; infer_instance

/-- `Classify` from the source: yearly (Dec 31) > monthly (last day of
month) > weekly (Sunday) > daily (rest). -/
def Classify (n : Int) : Period :=
  if monthOf n = 12 ∧ dayOf n = 31 then Period.Yearly
  else if isLastDayOfMonth n then Period.Monthly
  else if weekday n = 0 then Period.Weekly
  else Period.Daily

/-- The daily cutoff of `Apply`: `today.AddDate(0, 0, -retainDaily)`. -/
def dailyCutoff (today retainDaily : Int) : Int :=
  addDate today 0 0 (-retainDaily)

/-- The `for lastSunday.Weekday() != time.Sunday` loop of `Apply`, walking
back one day at a time.  A fuel of 7 always suffices since weekdays repeat
every 7 days; the Go loop terminates within 6 steps for the same reason. -/
def lastSundayLoop : Nat → Int → Int
  | 0, d => d
  | k + 1, d => if weekday d = 0 then d else lastSundayLoop k (addDate d 0 0 (-1))

/-- The most recent Sunday on or before `today` (including `today`). -/
def lastSunday (today : Int) : Int := lastSundayLoop 7 today

/-- The weekly keep-set loop of `Apply`:
`sunday := lastSunday.AddDate(0, 0, 7*i)`, insert, then break if
`sunday.Year() < 2000`.  `i` is the ascending loop index, the `Nat`
argument counts the remaining iterations. -/
def keepSundaysAux (ls : Int) : Int → Nat → List Int
  | _, 0 => []
  | i, k + 1 =>
    let s := addDate ls 0 0 (7 * i)
    s :: (if yearOf s < 2000 then [] else keepSundaysAux ls (i + 1) k)

/-- The weekly keep-set of `Apply` (as the list of inserted dates). -/
def keepSundays (today retainWeekly : Int) : List Int :=
  keepSundaysAux (lastSunday today) 0 retainWeekly.toNat

/-- `time.Date(m.Year(), m.Month(), 1, …).AddDate(0, 1, 0)` from the
monthly loop of `Apply`. -/
def firstOfNextMonth (n : Int) : Int :=
  addDate (goDate (yearOf n) (monthOf n) 1) 0 1 0

/-- `firstOfNextMonth.AddDate(0, 0, -1)`: the eventual end of the month
containing `n`. -/
def monthEnd (n : Int) : Int := addDate (firstOfNextMonth n) 0 0 (-1)

/-- The monthly keep-set loop of `Apply`: insert `monthEnd m`, count, break
if `monthEnd.Year() < 2000`, else `m = m.AddDate(0, -1, 0)`. -/
def keepMonthEndsAux : Nat → Int → List Int
  | 0, _ => []
  | k + 1, m =>
    let e := monthEnd m
    e :: (if yearOf e < 2000 then [] else keepMonthEndsAux k (addDate m 0 (-1) 0))

/-- The monthly keep-set of `Apply`. -/
def keepMonthEnds (today retainMonthly : Int) : List Int :=
  keepMonthEndsAux retainMonthly.toNat today

/-- The yearly keep-set loop of `Apply`:
`for y, count := today.Year(), 0; count < retainYearly && y >= 2000; …`
inserting `time.Date(y, 12, 31, …)`. -/
def keepYearEndsAux : Nat → Int → List Int
  | 0, _ => []
  | k + 1, y =>
    if y < 2000 then [] else goDate y 12 31 :: keepYearEndsAux k (y - 1)

/-- The yearly keep-set of `Apply`. -/
def keepYearEnds (today retainYearly : Int) : List Int :=
  keepYearEndsAux retainYearly.toNat (yearOf today)

/-- The per-file keep decision of `Apply`:
`keep := !f.Date.Before(dailyCutoff)` or the file's date key is in one of
the three keep-sets.  Key comparison (`dateKey`, the `YYYYMMDD` string) is
civil-date equality, embedded here via `civilFromDays`. -/
def keepBackup (today retainDaily retainWeekly retainMonthly retainYearly : Int)
    (d : Int) : Bool :=
  !(d < dailyCutoff today retainDaily) ||
  (keepSundays today retainWeekly).any (fun s => civilFromDays s = civilFromDays d) ||
  (keepMonthEnds today retainMonthly).any (fun s => civilFromDays s = civilFromDays d) ||
  (keepYearEnds today retainYearly).any (fun s => civilFromDays s = civilFromDays d)

/-- `Apply` deletes exactly the listed backup dates that are not kept; the
files surviving one run are the kept ones. -/
def applyDeleted (today retainDaily retainWeekly retainMonthly retainYearly : Int)
    (files : List Int) : List Int :=
  files.filter
    (fun d => !keepBackup today retainDaily retainWeekly retainMonthly retainYearly d)

theorem daysInMonth_bounds (y m : Int) :
    28 ≤ daysInMonth y m ∧ daysInMonth y m ≤ 31 := by
  unfold daysInMonth
  split_ifs <;> omega

theorem daysInMonth_12 (y : Int) : daysInMonth y 12 = 31 := by
  unfold daysInMonth
  norm_num

theorem goDate_day31 (y : Int) : goDate y 12 31 = daysFromCivil y 12 31 := by
  rw [goDate_eq y 12 31 (by omega) (by omega), daysFromCivil_day_shift y 12 31]

theorem lastSundayLoop_eq (k : Nat) : ∀ d : Int, weekday d ≤ k →
    lastSundayLoop k d = d - weekday d := by
  induction k with
  | zero =>
    intro d h
    unfold lastSundayLoop
    unfold weekday at h ⊢
    omega
  | succ k ih =>
    intro d h
    unfold lastSundayLoop
    split_ifs with hw
    · omega
    · rw [addDate_days]
      rw [ih (d + -1) (by unfold weekday at hw h ⊢; omega)]
      unfold weekday at hw h ⊢
      omega

/-- `lastSunday` lands on a Sunday within the six days before (or on)
`today`. -/
theorem lastSunday_spec (today : Int) :
    lastSunday today = today - weekday today ∧
    weekday (lastSunday today) = 0 ∧
    today - 6 ≤ lastSunday today ∧ lastSunday today ≤ today := by
  have hw : 0 ≤ weekday today ∧ weekday today ≤ 6 := by unfold weekday; omega
  have he : lastSunday today = today - weekday today :=
    lastSundayLoop_eq 7 today (by omega)
  refine ⟨he, ?_, by omega, by omega⟩
  rw [he]
  unfold weekday at hw ⊢
  omega

theorem keepSundaysAux_lb (k : Nat) : ∀ (ls i e : Int), 0 ≤ i →
    e ∈ keepSundaysAux ls i k → ls ≤ e := by
  induction k with
  | zero =>
    intro ls i e _ h
    simp [keepSundaysAux] at h
  | succ k ih =>
    intro ls i e hi h
    unfold keepSundaysAux at h
    rcases List.mem_cons.mp h with rfl | htail
    · rw [addDate_days]
      omega
    · by_cases hc : yearOf (addDate ls 0 0 (7 * i)) < 2000
      · simp [hc] at htail
      · simp [hc] at htail
        exact ih ls (i + 1) e (by omega) htail

theorem keepYearEndsAux_lb (k : Nat) : ∀ (y e : Int),
    e ∈ keepYearEndsAux k y → 10957 ≤ e := by
  induction k with
  | zero =>
    intro y e h
    simp [keepYearEndsAux] at h
  | succ k ih =>
    intro y e h
    unfold keepYearEndsAux at h
    split_ifs at h with hy
    · simp at h
    · rcases List.mem_cons.mp h with rfl | htail
      · rw [goDate_day31]
        exact daysFromCivil_lb y 12 31 (by omega) (by omega) (by omega) (by omega)
      · exact ih (y - 1) e htail

/-- The eventual month end of the month containing `n`: it is the last day
of that month, and its civil year and month are those of `n`. -/
theorem monthEnd_spec (n : Int) :
    monthEnd n = daysFromCivil (civilFromDays n).y (civilFromDays n).m
      (daysInMonth (civilFromDays n).y (civilFromDays n).m) ∧
    (civilFromDays (monthEnd n)).y = (civilFromDays n).y ∧
    (civilFromDays (monthEnd n)).m = (civilFromDays n).m := by
  obtain ⟨hm1, hm2, hd1, hd2⟩ := civil_valid n
  obtain ⟨hdimL, hdimU⟩ := daysInMonth_bounds (civilFromDays n).y (civilFromDays n).m
  have hg1 : goDate (yearOf n) (monthOf n) 1 =
      daysFromCivil (civilFromDays n).y (civilFromDays n).m 1 := by
    unfold yearOf monthOf
    rw [goDate_eq _ _ _ hm1 hm2]
    omega
  have hcf : civilFromDays (daysFromCivil (civilFromDays n).y (civilFromDays n).m 1) =
      ⟨(civilFromDays n).y, (civilFromDays n).m, 1⟩ :=
    civilFromDays_daysFromCivil _ _ _ hm1 hm2 (by omega) (by omega)
  have hstep : monthEnd n =
      goDate (civilFromDays n).y ((civilFromDays n).m + 1) 1 + -1 := by
    unfold monthEnd firstOfNextMonth
    rw [hg1, addDate_days]
    unfold addDate
    rw [hcf]
    dsimp only
    rw [show (civilFromDays n).y + 0 = (civilFromDays n).y from by ring,
      show (1 : Int) + 0 = 1 from by norm_num]
  by_cases h11 : (civilFromDays n).m ≤ 11
  · have hgo : goDate (civilFromDays n).y ((civilFromDays n).m + 1) 1 =
        daysFromCivil (civilFromDays n).y ((civilFromDays n).m + 1) 1 := by
      rw [goDate_eq _ _ _ (by omega) (by omega)]
      omega
    have hsucc := daysFromCivil_month_succ (civilFromDays n).y (civilFromDays n).m hm1 h11
    have hme : monthEnd n = daysFromCivil (civilFromDays n).y (civilFromDays n).m
        (daysInMonth (civilFromDays n).y (civilFromDays n).m) := by
      rw [hstep, hgo]
      omega
    refine ⟨hme, ?_, ?_⟩ <;>
      rw [hme, civilFromDays_daysFromCivil _ _ _ hm1 hm2 (by omega) (by omega)]
  · have h12 : (civilFromDays n).m = 12 := by omega
    have hgo : goDate (civilFromDays n).y ((civilFromDays n).m + 1) 1 =
        daysFromCivil ((civilFromDays n).y + 1) 1 1 := by
      rw [h12]
      unfold goDate
      norm_num
    have hsucc := daysFromCivil_year_succ (civilFromDays n).y
    have hme : monthEnd n = daysFromCivil (civilFromDays n).y 12 31 := by
      rw [hstep, hgo]
      omega
    rw [h12, daysInMonth_12]
    refine ⟨hme, ?_, ?_⟩ <;>
      rw [hme, civilFromDays_daysFromCivil _ 12 31 (by omega) (by omega) (by omega)
        (by rw [daysInMonth_12])]

/-- `m.AddDate(0, -1, 0)` steps to the previous month: the civil year stays
the same when the month is at least February; from January it moves to
December of the previous year.  (Go normalization may clip the day forward
by up to three days, which never changes the month further.) -/
theorem addDate_prevMonth (n : Int) :
    (2 ≤ (civilFromDays n).m ∧
      (civilFromDays (addDate n 0 (-1) 0)).y = (civilFromDays n).y) ∨
    ((civilFromDays n).m = 1 ∧
      (civilFromDays (addDate n 0 (-1) 0)).y = (civilFromDays n).y - 1 ∧
      (civilFromDays (addDate n 0 (-1) 0)).m = 12) := by
  obtain ⟨hm1, hm2, hd1, hd2⟩ := civil_valid n
  have hd31 : (civilFromDays n).d ≤ 31 := by
    have := daysInMonth_bounds (civilFromDays n).y (civilFromDays n).m
    omega
  have hstep : addDate n 0 (-1) 0 =
      goDate (civilFromDays n).y ((civilFromDays n).m - 1) (civilFromDays n).d := by
    unfold addDate
    rw [show (civilFromDays n).y + 0 = (civilFromDays n).y from by ring,
      show (civilFromDays n).m + -1 = (civilFromDays n).m - 1 from by ring,
      show (civilFromDays n).d + 0 = (civilFromDays n).d from by ring]
  by_cases hone : (civilFromDays n).m = 1
  · right
    refine ⟨hone, ?_⟩
    have hgo : addDate n 0 (-1) 0 =
        daysFromCivil ((civilFromDays n).y - 1) 12 (civilFromDays n).d := by
      rw [hstep, hone]
      unfold goDate
      norm_num
      rw [daysFromCivil_day_shift ((civilFromDays n).y - 1) 12 (civilFromDays n).d]
      ring_nf
    rw [hgo, civilFromDays_daysFromCivil _ 12 _ (by omega) (by omega) hd1
      (by rw [daysInMonth_12]; omega)]
    exact ⟨rfl, rfl⟩
  · left
    have hm1' : 2 ≤ (civilFromDays n).m := by omega
    refine ⟨hm1', ?_⟩
    have hgo : addDate n 0 (-1) 0 =
        daysFromCivil (civilFromDays n).y ((civilFromDays n).m - 1) (civilFromDays n).d := by
      rw [hstep, goDate_eq _ _ _ (by omega) (by omega),
        ← daysFromCivil_day_shift]
    by_cases hdd : (civilFromDays n).d ≤ daysInMonth (civilFromDays n).y ((civilFromDays n).m - 1)
    · rw [hgo, civilFromDays_daysFromCivil _ _ _ (by omega) (by omega) hd1 hdd]
    · obtain ⟨hdL, hdU⟩ := daysInMonth_bounds (civilFromDays n).y ((civilFromDays n).m - 1)
      obtain ⟨hdL2, hdU2⟩ := daysInMonth_bounds (civilFromDays n).y (civilFromDays n).m
      have hshift : daysFromCivil (civilFromDays n).y ((civilFromDays n).m - 1) (civilFromDays n).d =
          daysFromCivil (civilFromDays n).y (civilFromDays n).m
            ((civilFromDays n).d - daysInMonth (civilFromDays n).y ((civilFromDays n).m - 1)) := by
        have a1 := daysFromCivil_day_shift (civilFromDays n).y ((civilFromDays n).m - 1)
          (civilFromDays n).d
        have a2 := daysFromCivil_day_shift (civilFromDays n).y ((civilFromDays n).m - 1)
          (daysInMonth (civilFromDays n).y ((civilFromDays n).m - 1))
        have a3 := daysFromCivil_month_succ (civilFromDays n).y ((civilFromDays n).m - 1)
          (by omega) (by omega)
        have a4 := daysFromCivil_day_shift (civilFromDays n).y (civilFromDays n).m
          ((civilFromDays n).d - daysInMonth (civilFromDays n).y ((civilFromDays n).m - 1))
        rw [show (civilFromDays n).m - 1 + 1 = (civilFromDays n).m from by ring] at a3
        omega
      rw [hgo, hshift, civilFromDays_daysFromCivil _ _ _ (by omega) (by omega)
        (by omega) (by omega)]

theorem keepMonthEndsAux_lb (k : Nat) : ∀ m e : Int,
    (2000 ≤ (civilFromDays m).y ∨
      ((civilFromDays m).y = 1999 ∧ (civilFromDays m).m = 12)) →
    e ∈ keepMonthEndsAux k m → 10956 ≤ e := by
  induction k with
  | zero =>
    intro m e _ h
    simp [keepMonthEndsAux] at h
  | succ k ih =>
    intro m e hinv h
    obtain ⟨hME, hYear, hMonth⟩ := monthEnd_spec m
    obtain ⟨hm1, hm2, _, _⟩ := civil_valid m
    unfold keepMonthEndsAux at h
    rcases List.mem_cons.mp h with rfl | htail
    · rcases hinv with h2000 | ⟨h99, h12⟩
      · rw [hME]
        have hdim := daysInMonth_bounds (civilFromDays m).y (civilFromDays m).m
        have := daysFromCivil_lb (civilFromDays m).y (civilFromDays m).m
          (daysInMonth (civilFromDays m).y (civilFromDays m).m) h2000 hm1 hm2 (by omega)
        omega
      · rw [hME, h99, h12, daysInMonth_12]
        decide
    · by_cases hc : yearOf (monthEnd m) < 2000
      · simp [hc] at htail
      · simp [hc] at htail
        apply ih _ _ ?_ htail
        have hy2000 : 2000 ≤ (civilFromDays m).y := by
          unfold yearOf at hc
          omega
        rcases addDate_prevMonth m with ⟨_, hpy⟩ | ⟨_, hpy, hpm⟩
        · left
          omega
        · by_cases hz : (civilFromDays m).y - 1 = 1999
          · right
            exact ⟨by omega, hpm⟩
          · left
            omega

/-- C9: the classifier assigns exactly one class with strict precedence —
December 31 is yearly; otherwise the last day of a month is monthly;
otherwise a Sunday (weekday 0) is weekly; every other date is daily.  In
particular 2025-12-31 is yearly, 2025-01-31 and 2025-02-28 are monthly,
2025-02-02 (a Sunday) is weekly, and 2025-01-15 (a Wednesday) is daily. -/
theorem claim_classify_precedence :
    (∀ n : Int,
      (Classify n = Period.Yearly ↔ monthOf n = 12 ∧ dayOf n = 31) ∧
      (Classify n = Period.Monthly ↔
        ¬(monthOf n = 12 ∧ dayOf n = 31) ∧ isLastDayOfMonth n) ∧
      (Classify n = Period.Weekly ↔
        ¬(monthOf n = 12 ∧ dayOf n = 31) ∧ ¬isLastDayOfMonth n ∧ weekday n = 0) ∧
      (Classify n = Period.Daily ↔
        ¬(monthOf n = 12 ∧ dayOf n = 31) ∧ ¬isLastDayOfMonth n ∧ weekday n ≠ 0)) ∧
    Classify (daysFromCivil 2025 12 31) = Period.Yearly ∧
    Classify (daysFromCivil 2025 1 31) = Period.Monthly ∧
    Classify (daysFromCivil 2025 2 28) = Period.Monthly ∧
    weekday (daysFromCivil 2025 2 2) = 0 ∧
    Classify (daysFromCivil 2025 2 2) = Period.Weekly ∧
    weekday (daysFromCivil 2025 1 15) = 3 ∧
    Classify (daysFromCivil 2025 1 15) = Period.Daily := by
  refine ⟨?_, by decide, by decide, by decide, by decide, by decide, by decide, by decide⟩
  intro n
  unfold Classify
  refine ⟨?_, ?_, ?_, ?_⟩ <;> split_ifs <;> simp_all

/-- C3 (failing input): with "now" = 2025-01-15 and `retainWeekly = 2` the
weekly keep-set computed by `Apply` is exactly the most recent Sunday
(2025-01-12) followed by the FUTURE Sunday 2025-01-19; the previous Sunday
2025-01-05 — which the spec says must be kept — is not in the set.  The
loop steps `AddDate(0, 0, 7*i)` forward instead of backward, contradicting
the function's own doc comment ("keep all weekly backups from the last 3
Sundays"). -/
theorem claim_weekly_keepset_bug :
    lastSunday (daysFromCivil 2025 1 15) = daysFromCivil 2025 1 12 ∧
    keepSundays (daysFromCivil 2025 1 15) 2 =
      [daysFromCivil 2025 1 12, daysFromCivil 2025 1 19] ∧
    daysFromCivil 2025 1 5 ∉ keepSundays (daysFromCivil 2025 1 15) 2 ∧
    weekday (daysFromCivil 2025 1 5) = 0 ∧
    weekday (daysFromCivil 2025 1 12) = 0 := by
  decide

theorem mem_by_dateKey (L : List Int) (d : Int) :
    (L.any fun s => civilFromDays s = civilFromDays d) = true ↔ d ∈ L := by
  rw [List.any_eq_true]
  constructor
  · rintro ⟨s, hs, he⟩
    simp only [decide_eq_true_eq] at he
    rwa [← civilFromDays_injective s d he]
  · intro hd
    exact ⟨d, hd, by simp⟩

/-- Keep predicate following the words of the specification for C2
(modelled from the spec, for comparison with `keepBackup`): the daily
window is the closed interval from `today - retainDaily` up to `today`,
and otherwise the date must be a member of one of the three keep-sets. -/
def keepWindowSpec (today retainDaily retainWeekly retainMonthly retainYearly d : Int) :
    Prop :=
  (today - retainDaily ≤ d ∧ d ≤ today) ∨
  d ∈ keepSundays today retainWeekly ∨
  d ∈ keepMonthEnds today retainMonthly ∨
  d ∈ keepYearEnds today retainYearly

instance keepWindowSpec.instDecidable (today rD rW rM rY d : Int) :
    Decidable (keepWindowSpec today rD rW rM rY d) := by
  unfold keepWindowSpec
  infer_instance

/-- C2 (counterexample): with "now" = 2025-01-15 and all retention counts
zero, an artifact dated 2025-01-16 (one day in the future) is kept by the
code — `keep := !f.Date.Before(dailyCutoff)` has no upper bound — although
it is outside the claimed window `[today - retainDaily, today]` and in no
keep-set, so the claimed "exactly when" equivalence is false. -/
theorem claim_keep_union_counterexample :
    keepBackup (daysFromCivil 2025 1 15) 0 0 0 0 (daysFromCivil 2025 1 16) = true ∧
    ¬ keepWindowSpec (daysFromCivil 2025 1 15) 0 0 0 0 (daysFromCivil 2025 1 16) := by
  decide

/-- C2 (amended): one pruner run keeps an artifact exactly when its date is
on or after `today - retainDaily` (the daily rule has no upper bound:
future-dated artifacts are also kept) or its date is a member of the
weekly, monthly, or yearly keep-set; in particular, with `retainDaily = 14`
an artifact dated 3 days before "now" is always kept regardless of the
weekly, monthly and yearly counts. -/
theorem claim_keep_union_amended :
    (∀ today rD rW rM rY d : Int,
      (keepBackup today rD rW rM rY d = true ↔
        today - rD ≤ d ∨ d ∈ keepSundays today rW ∨ d ∈ keepMonthEnds today rM ∨
          d ∈ keepYearEnds today rY)) ∧
    (∀ today rW rM rY : Int,
      keepBackup today 14 rW rM rY (addDate today 0 0 (-3)) = true) := by
  have hmain : ∀ today rD rW rM rY d : Int,
      (keepBackup today rD rW rM rY d = true ↔
        today - rD ≤ d ∨ d ∈ keepSundays today rW ∨ d ∈ keepMonthEnds today rM ∨
          d ∈ keepYearEnds today rY) := by
    intro today rD rW rM rY d
    unfold keepBackup dailyCutoff
    rw [addDate_days]
    simp only [Bool.or_eq_true, Bool.not_eq_true', decide_eq_false_iff_not, not_lt,
      mem_by_dateKey]
    constructor
    · rintro (((h | h) | h) | h)
      · exact Or.inl (by omega)
      · exact Or.inr (Or.inl h)
      · exact Or.inr (Or.inr (Or.inl h))
      · exact Or.inr (Or.inr (Or.inr h))
    · rintro (h | h | h | h)
      · exact Or.inl (Or.inl (Or.inl (by omega)))
      · exact Or.inl (Or.inl (Or.inr h))
      · exact Or.inl (Or.inr h)
      · exact Or.inr h
  refine ⟨hmain, ?_⟩
  intro today rW rM rY
  rw [hmain, addDate_days]
  left
  omega

/-- C10 (counterexample): for "now" = 2000-01-01 (a Saturday, year 2000)
and `retainWeekly = 1`, the weekly keep-set contains 1999-12-26 — the most
recent Sunday — which lies before January 1, 2000, so keep-set dates before
year 2000 ARE generated. -/
theorem claim_keepsets_floor_counterexample :
    2000 ≤ yearOf (daysFromCivil 2000 1 1) ∧
    daysFromCivil 1999 12 26 ∈ keepSundays (daysFromCivil 2000 1 1) 1 ∧
    daysFromCivil 1999 12 26 < daysFromCivil 2000 1 1 := by
  decide

/-- C10 (amended): for every "now" whose year is at least 2000, the yearly
keep-set never contains a date before 2000-01-01; the weekly keep-set never
contains a date before `today - 6` (hence never before 1999-12-26); and the
monthly keep-set never contains a date before 1999-12-31. -/
theorem claim_keepsets_floor_amended (today rW rM rY : Int)
    (h : 2000 ≤ yearOf today) :
    (∀ e ∈ keepYearEnds today rY, daysFromCivil 2000 1 1 ≤ e) ∧
    (∀ e ∈ keepSundays today rW, addDate today 0 0 (-6) ≤ e) ∧
    (∀ e ∈ keepMonthEnds today rM, daysFromCivil 1999 12 31 ≤ e) := by
  have h2000 : daysFromCivil 2000 1 1 = 10957 := by decide
  have h99 : daysFromCivil 1999 12 31 = 10956 := by decide
  refine ⟨?_, ?_, ?_⟩
  · intro e he
    unfold keepYearEnds at he
    have := keepYearEndsAux_lb rY.toNat (yearOf today) e he
    omega
  · intro e he
    unfold keepSundays at he
    obtain ⟨hls, _, hlb, _⟩ := lastSunday_spec today
    have := keepSundaysAux_lb rW.toNat (lastSunday today) 0 e (by omega) he
    rw [addDate_days]
    unfold weekday at hls
    omega
  · intro e he
    unfold keepMonthEnds at he
    have := keepMonthEndsAux_lb rM.toNat today e (Or.inl h) he
    omega

/-- Witness for `claim_keepsets_floor_amended` at "now" = 2025-06-15 with
all three counts 3. -/
theorem claim_keepsets_floor_amended_witness :
    2000 ≤ yearOf (daysFromCivil 2025 6 15) ∧
    ((∀ e ∈ keepYearEnds (daysFromCivil 2025 6 15) 3, daysFromCivil 2000 1 1 ≤ e) ∧
     (∀ e ∈ keepSundays (daysFromCivil 2025 6 15) 3,
        addDate (daysFromCivil 2025 6 15) 0 0 (-6) ≤ e) ∧
     (∀ e ∈ keepMonthEnds (daysFromCivil 2025 6 15) 3, daysFromCivil 1999 12 31 ≤ e)) :=
  ⟨by decide, claim_keepsets_floor_amended (daysFromCivil 2025 6 15) 3 3 3 (by decide)⟩

-- ### Atomic archive writer (backup.go): start-of-cycle recovery and
-- crash-safe write with rollback

/-- A file on disk: its size and an abstract content identity (two equal
`data` values mean byte-identical contents). -/
structure SFile where
  size : Int
  data : Nat
deriving DecidableEq, Repr

/-- One base name's recovery step of `recoverSavFiles`: given the `.sav`
sidecar (if present) and the same-named `.zip` target (if present), return
the resulting (sidecar, target) pair.
* no sidecar: the loop skips the name;
* sidecar only: `os.Rename(savPath, zipPath)`;
* both: if `savInfo.Size() >= zipInfo.Size()` remove the zip and rename the
  sav over it, else remove the sav. -/
def recoverSav (sav target : Option SFile) : Option SFile × Option SFile :=
  match sav, target with
  | none, t => (none, t)
  | some s, none => (none, some s)
  | some s, some z => if z.size ≤ s.size then (none, some s) else (none, some z)

/-- Whole-directory recovery: bases are independent (each `.sav` name
touches only its own `.zip` name), so `recoverSavFiles` acts pointwise on
the (sidecar, target) pair of every base name. -/
def recoverDir (dir : String → Option SFile × Option SFile) :
    String → Option SFile × Option SFile :=
  fun b => recoverSav (dir b).1 (dir b).2

/-- C4: start-of-cycle recovery processes each leftover sidecar so that,
when a same-named target also exists, the larger of the two survives under
the target name and the smaller is removed (the sidecar wins ties and
replaces the target whenever it is at least as large); a sidecar without a
target is renamed to the target name; names without a sidecar are
untouched; and recovery is idempotent. -/
theorem claim_recover_sav_files :
    (∀ (dir : String → Option SFile × Option SFile) (b : String),
      (∀ s z : SFile, dir b = (some s, some z) →
        recoverDir dir b = (none, some (if z.size ≤ s.size then s else z))) ∧
      (∀ s : SFile, dir b = (some s, none) → recoverDir dir b = (none, some s)) ∧
      (∀ t : Option SFile, dir b = (none, t) → recoverDir dir b = (none, t)) ∧
      recoverDir (recoverDir dir) b = recoverDir dir b) := by
  intro dir b
  refine ⟨?_, ?_, ?_, ?_⟩
  · intro s z h
    unfold recoverDir
    rw [h]
    unfold recoverSav
    dsimp only
    split_ifs with hc <;> simp [hc]
  · intro s h
    unfold recoverDir
    rw [h]
    rfl
  · intro t h
    unfold recoverDir
    rw [h]
    rfl
  · unfold recoverDir recoverSav
    rcases (dir b) with ⟨s, t⟩
    rcases s with _ | s <;> rcases t with _ | t <;> dsimp only <;> try rfl
    split_ifs <;> rfl

/-- Failure-injection points of one artifact's write, matching the error
paths of `safeWriteZIPStreaming` and its caller `Run`:
`w.Create` failing, `conn.DumpDatabase` failing mid-stream, one of the
user-block writes failing, `finish()` failing, or no failure. -/
inductive FailPoint where
  | entryCreate : FailPoint
  | dumpStream : FailPoint
  | userBlock : FailPoint
  | finishStep : FailPoint
  | noFail : FailPoint
deriving DecidableEq, Repr

/-- State of the one target path: the file at the target name `P` and the
sidecar (`.sav`) file. -/
structure PathState where
  target : Option SFile
  sav : Option SFile
deriving DecidableEq, Repr

/-- The rollback (`cancel`) of `safeWriteZIPStreaming`: close and remove
the partially written target; if a sidecar exists, rename it back to the
target name (the entry-creation error path performs the same cleanup
inline). -/
def cancelWrite (st : PathState) : PathState := ⟨st.sav, none⟩

/-- One artifact write through `safeWriteZIPStreaming` + the per-database
body of `Run`, with a failure injected at `fp`.  Step 1 renames an
existing good target aside to the sidecar; the target is then created and
streamed; on success `finish()` closes the file and deletes the sidecar; on
any failure the caller (or the inline error path) cancels.  Returns the
final path state and whether an error was propagated. -/
def writeArtifact (st : PathState) (partialFile newFile : SFile) (fp : FailPoint) :
    PathState × Bool :=
  let st1 : PathState :=
    match st.target with
    | some f => ⟨none, some f⟩
    | none => st
  let st2 : PathState := ⟨some partialFile, st1.sav⟩
  match fp with
  | FailPoint.entryCreate => (cancelWrite st2, true)
  | FailPoint.dumpStream => (cancelWrite st2, true)
  | FailPoint.userBlock => (cancelWrite st2, true)
  | FailPoint.finishStep => (cancelWrite st2, true)
  | FailPoint.noFail => (⟨some newFile, none⟩, false)

/-- C1: if a good file existed at the target path (so step 1 moved it to
the sidecar) and any step after target creation fails — entry creation,
dump streaming, grant-fragment write, or finalization — then after the
rollback the partial target is gone, the sidecar has been renamed back, the
content at the target path is byte-identical to the pre-write content, no
sidecar remains, and the error is propagated to the caller. -/
theorem claim_safe_write_rollback (f partialFile newFile : SFile) (fp : FailPoint)
    (hfp : fp ≠ FailPoint.noFail) :
    writeArtifact ⟨some f, none⟩ partialFile newFile fp = (⟨some f, none⟩, true) := by
  cases fp <;> first | rfl | exact absurd rfl hfp

/-- Witness for `claim_safe_write_rollback`: a dump-stream failure over an
existing 10-byte artifact. -/
theorem claim_safe_write_rollback_witness :
    FailPoint.dumpStream ≠ FailPoint.noFail ∧
    writeArtifact ⟨some ⟨10, 1⟩, none⟩ ⟨3, 2⟩ ⟨20, 3⟩ FailPoint.dumpStream =
      (⟨some ⟨10, 1⟩, none⟩, true) :=
  ⟨by decide, claim_safe_write_rollback ⟨10, 1⟩ ⟨3, 2⟩ ⟨20, 3⟩ FailPoint.dumpStream
    (by decide)⟩

-- ### Remote sync engine (remote package): upload/delete decisions and
-- streaming encryption

/-- A local backup zip as listed by `listLocalBackups`. -/
structure LocalE where
  name : String
  modTime : Int
  size : Int
deriving DecidableEq, Repr

/-- A remote entry as listed by `listRemote`. -/
structure RemoteE where
  name : String
  modTime : Int
  size : Int
deriving DecidableEq, Repr

/-- `saltLen + nonceLen` from the remote package. -/
def encryptionOverhead : Int := 16 + 16

/-- The `remoteMap` lookup of `Sync`: a Go map built by iterating the
remote list, so a later entry with the same name overwrites an earlier
one. -/
def remoteLookup (remotes : List RemoteE) (nm : String) : Option RemoteE :=
  remotes.foldl (fun acc e => if e.name = nm then some e else acc) none

/-- The per-artifact upload decision of `Sync`:
`needUpload := !exists || loc.ModTime.After(rem.ModTime)`, and additionally
when encryption is on and a same-named remote entry exists, upload if the
remote size is not local size plus the encryption header overhead. -/
def needUpload (encrypt : Bool) (remotes : List RemoteE) (loc : LocalE) : Bool :=
  match remoteLookup remotes loc.name with
  | none => true
  | some rem =>
    (rem.modTime < loc.modTime : Bool) ||
      (encrypt && (rem.size ≠ loc.size + encryptionOverhead : Bool))

/-- The set of local artifacts one failure-free `Sync` run uploads. -/
def syncUploads (encrypt : Bool) (locals : List LocalE) (remotes : List RemoteE) :
    List LocalE :=
  locals.filter (needUpload encrypt remotes)

/-- The set of remote entries one failure-free `Sync` run deletes: those
whose name matches no local artifact (`localListByName` finds none). -/
def syncDeletes (locals : List LocalE) (remotes : List RemoteE) : List RemoteE :=
  remotes.filter (fun rem => !(locals.any (fun l => l.name = rem.name)))

/-- C8: one sync run uploads a local artifact exactly when no same-named
remote entry exists, or the local modification time is strictly newer, or
encryption is enabled and the same-named remote entry's size is not the
local size plus the 32-byte encryption header overhead; and it deletes
exactly those remote entries whose name matches no local artifact. -/
theorem claim_sync_decisions (encrypt : Bool) (locals : List LocalE)
    (remotes : List RemoteE) :
    (∀ l : LocalE, l ∈ syncUploads encrypt locals remotes ↔
      l ∈ locals ∧
        (remoteLookup remotes l.name = none ∨
          ∃ rem, remoteLookup remotes l.name = some rem ∧
            (rem.modTime < l.modTime ∨
              (encrypt = true ∧ rem.size ≠ l.size + 32)))) ∧
    (∀ rem : RemoteE, rem ∈ syncDeletes locals remotes ↔
      rem ∈ remotes ∧ ∀ l ∈ locals, l.name ≠ rem.name) := by
  constructor
  · intro l
    unfold syncUploads needUpload
    rw [List.mem_filter]
    rcases hl : remoteLookup remotes l.name with _ | rem
    · simp [hl]
    · simp only [hl, Bool.or_eq_true, Bool.and_eq_true, decide_eq_true_eq]
      constructor
      · rintro ⟨hmem, hcase⟩
        refine ⟨hmem, Or.inr ⟨rem, rfl, ?_⟩⟩
        rcases hcase with h | ⟨he, hs⟩
        · exact Or.inl h
        · exact Or.inr ⟨he, by simpa [encryptionOverhead] using hs⟩
      · rintro ⟨hmem, hnone | ⟨rem2, hrem2, hcase⟩⟩
        · exact absurd hnone (by simp)
        · injection hrem2 with he2
          subst he2
          refine ⟨hmem, ?_⟩
          rcases hcase with h | ⟨he, hs⟩
          · exact Or.inl h
          · exact Or.inr ⟨he, by simpa [encryptionOverhead] using hs⟩
  · intro rem
    unfold syncDeletes
    rw [List.mem_filter]
    simp

-- ### Streaming encryption (AES-256-CTR, keystream abstracted)

/-- XOR a byte stream with a positional keystream starting at stream
position `i` (the CTR cipher stream; `StreamWriter`/`StreamReader` apply it
byte by byte). -/
def xorKeystream (ks : Nat → Nat) : Nat → List Nat → List Nat
  | _, [] => []
  | i, b :: bs => (b ^^^ ks i) :: xorKeystream ks (i + 1) bs

/-- `streamEncryptUpload`: generate salt and nonce (taken as inputs here —
in the source they are 16 random bytes each), derive the key from the
passphrase and salt (`kdf` abstracts PBKDF2), and write
salt, then nonce, then the CTR-encrypted payload (`ks key nonce`
abstracts the AES-CTR keystream). -/
def streamEncryptUpload (kdf : List Nat → List Nat → List Nat)
    (ks : List Nat → List Nat → Nat → Nat)
    (password salt nonce payload : List Nat) : List Nat :=
  salt ++ nonce ++ xorKeystream (ks (kdf password salt) nonce) 0 payload

/-- The download side (`getOneFile`): read a 32-byte header; if the
configured passphrase is non-empty, the full header was read, and the
header does not start with the ZIP magic bytes 80 ('P') and 75 ('K'), then
decrypt the remainder using the salt and nonce from the header; otherwise
copy the file through unchanged.  A file of 1..31 bytes makes `ReadFull`
fail (`none`). -/
def getOneFileBytes (kdf : List Nat → List Nat → List Nat)
    (ks : List Nat → List Nat → Nat → Nat)
    (password file : List Nat) : Option (List Nat) :=
  if file.length ≠ 0 ∧ file.length < 32 then none
  else if password ≠ [] ∧ 32 ≤ file.length ∧
      ¬((file.take 32).take 2 = [80, 75]) then
    some (xorKeystream (ks (kdf password ((file.take 32).take 16))
      ((file.take 32).drop 16)) 0 (file.drop 32))
  else some file

theorem xorKeystream_length (ks : Nat → Nat) : ∀ (i : Nat) (p : List Nat),
    (xorKeystream ks i p).length = p.length := by
  intro i p
  induction p generalizing i with
  | nil => rfl
  | cons b bs ih => simp [xorKeystream, ih]

theorem xorKeystream_xorKeystream (ks1 ks2 : Nat → Nat) : ∀ (i : Nat) (p : List Nat),
    (xorKeystream ks2 i (xorKeystream ks1 i p) = p ↔
      ∀ j < p.length, ks2 (i + j) = ks1 (i + j)) := by
  intro i p
  induction p generalizing i with
  | nil => simp [xorKeystream]
  | cons b bs ih =>
    simp only [xorKeystream, List.cons.injEq, List.length_cons]
    constructor
    · rintro ⟨hh, ht⟩
      intro j hj
      rcases j with _ | j
      · have h1 : b ^^^ (ks1 i ^^^ ks2 i) = b ^^^ 0 := by
          rw [Nat.xor_zero, ← Nat.xor_assoc]
          exact hh
        have h2 : ks1 i ^^^ ks2 i = 0 := by
          calc ks1 i ^^^ ks2 i = b ^^^ (b ^^^ (ks1 i ^^^ ks2 i)) :=
                (Nat.xor_cancel_left _ _).symm
            _ = b ^^^ (b ^^^ 0) := by rw [h1]
            _ = 0 := by rw [Nat.xor_zero, Nat.xor_self]
        have h3 := Nat.xor_eq_zero.mp h2
        simpa using h3.symm
      · have := (ih (i + 1)).mp ht j (by omega)
        rw [show i + (j + 1) = i + 1 + j from by omega]
        exact this
    · intro hall
      refine ⟨?_, ?_⟩
      · have h0 := hall 0 (by omega)
        simp only [Nat.add_zero] at h0
        rw [h0, Nat.xor_cancel_right]
      · rw [ih (i + 1)]
        intro j hj
        rw [show i + 1 + j = i + (j + 1) from by omega]
        exact hall (j + 1) (by omega)

theorem xorKeystream_involutive (ks : Nat → Nat) (i : Nat) (p : List Nat) :
    xorKeystream ks i (xorKeystream ks i p) = p := by
  rw [xorKeystream_xorKeystream]
  intro j _
  rfl

/-- C7 (counterexample): when the 16 random salt bytes happen to begin with
80 ('P') and 75 ('K') — the archive container's magic — the download side
mistakes the encrypted file for a plain archive and returns it undecrypted,
so decrypting with the same passphrase does not return the payload.  (Toy
key-derivation and keystream functions; the failure is independent of
them.) -/
theorem claim_encrypt_roundtrip_counterexample :
    getOneFileBytes (fun _ _ => []) (fun _ _ _ => 0) [1]
      (streamEncryptUpload (fun _ _ => []) (fun _ _ _ => 0) [1]
        [80, 75, 0, 0, 0, 0, 0, 0, 0, 0, 0, 0, 0, 0, 0, 0]
        [0, 0, 0, 0, 0, 0, 0, 0, 0, 0, 0, 0, 0, 0, 0, 0] [7]) ≠ some [7] := by
  decide

/-- C7 (amended): streaming encryption produces
`[salt:16 bytes][nonce:16 bytes][ciphertext]`; provided the random salt
does not begin with the container magic bytes 'P','K', download-side
decryption with the same passphrase returns exactly the original payload;
decryption with a different (non-empty) passphrase completes without error,
returns a byte string of the payload's length, and that string equals the
original payload exactly when the two derived keystreams agree at every
payload position (with the real PBKDF2/AES-CTR instantiation, differing
passphrases give differing keystreams except with negligible probability,
which is beyond the embedding). -/
theorem claim_encrypt_roundtrip_amended
    (kdf : List Nat → List Nat → List Nat) (ks : List Nat → List Nat → Nat → Nat)
    (password salt nonce payload : List Nat)
    (hsalt : salt.length = 16) (hnonce : nonce.length = 16) (hpw : password ≠ []) :
    ((streamEncryptUpload kdf ks password salt nonce payload).take 16 = salt ∧
      ((streamEncryptUpload kdf ks password salt nonce payload).drop 16).take 16 = nonce ∧
      (streamEncryptUpload kdf ks password salt nonce payload).length =
        32 + payload.length) ∧
    (¬ salt.take 2 = [80, 75] →
      getOneFileBytes kdf ks password
        (streamEncryptUpload kdf ks password salt nonce payload) = some payload) ∧
    (∀ password2 : List Nat, password2 ≠ [] → ¬ salt.take 2 = [80, 75] →
      ∃ out, getOneFileBytes kdf ks password2
          (streamEncryptUpload kdf ks password salt nonce payload) = some out ∧
        out.length = payload.length ∧
        (out = payload ↔ ∀ j < payload.length,
          ks (kdf password2 salt) nonce j = ks (kdf password salt) nonce j)) := by
  have hassoc : streamEncryptUpload kdf ks password salt nonce payload =
      (salt ++ nonce) ++ xorKeystream (ks (kdf password salt) nonce) 0 payload := by
    unfold streamEncryptUpload
    rw [List.append_assoc]
  have hsn : (salt ++ nonce).length = 32 := by
    rw [List.length_append, hsalt, hnonce]
  have hlen : (streamEncryptUpload kdf ks password salt nonce payload).length =
      32 + payload.length := by
    rw [hassoc, List.length_append, hsn, xorKeystream_length]
  have htake32 : (streamEncryptUpload kdf ks password salt nonce payload).take 32 =
      salt ++ nonce := by
    rw [hassoc, show (32 : Nat) = (salt ++ nonce).length from hsn.symm, List.take_left]
  have hdrop32 : (streamEncryptUpload kdf ks password salt nonce payload).drop 32 =
      xorKeystream (ks (kdf password salt) nonce) 0 payload := by
    rw [hassoc, show (32 : Nat) = (salt ++ nonce).length from hsn.symm, List.drop_left]
  have hs16 : (salt ++ nonce).take 16 = salt := by
    rw [show (16 : Nat) = salt.length from hsalt.symm, List.take_left]
  have hn16 : (salt ++ nonce).drop 16 = nonce := by
    rw [show (16 : Nat) = salt.length from hsalt.symm, List.drop_left]
  have htake16 : (streamEncryptUpload kdf ks password salt nonce payload).take 16 =
      salt := by
    rw [show (16 : Nat) = min 16 32 from rfl, ← List.take_take, htake32, hs16]
  have hdrop16 : ((streamEncryptUpload kdf ks password salt nonce payload).drop 16).take 16 =
      nonce := by
    rw [hassoc]
    rw [show ((salt ++ nonce) ++ xorKeystream (ks (kdf password salt) nonce) 0 payload).drop 16 =
      nonce ++ xorKeystream (ks (kdf password salt) nonce) 0 payload from by
        rw [List.append_assoc, show (16 : Nat) = salt.length from hsalt.symm, List.drop_left]]
    rw [show (16 : Nat) = nonce.length from hnonce.symm, List.take_left]
  have hhead2 : ((streamEncryptUpload kdf ks password salt nonce payload).take 32).take 2 =
      salt.take 2 := by
    rw [htake32, List.take_append_of_le_length (by omega)]
  refine ⟨⟨htake16, hdrop16, hlen⟩, ?_, ?_⟩
  · intro hpk
    unfold getOneFileBytes
    rw [if_neg (by omega)]
    rw [if_pos ⟨hpw, by omega, by rw [hhead2]; exact hpk⟩]
    rw [htake32, hs16, hn16, hdrop32, xorKeystream_involutive]
  · intro password2 hpw2 hpk
    refine ⟨xorKeystream (ks (kdf password2 salt) nonce) 0
      (xorKeystream (ks (kdf password salt) nonce) 0 payload), ?_, ?_, ?_⟩
    · unfold getOneFileBytes
      rw [if_neg (by omega)]
      rw [if_pos ⟨hpw2, by omega, by rw [hhead2]; exact hpk⟩]
      rw [htake32, hs16, hn16, hdrop32]
    · rw [xorKeystream_length, xorKeystream_length]
    · rw [xorKeystream_xorKeystream]
      constructor
      · intro h j hj
        simpa using h j hj
      · intro h j hj
        simpa using h j hj

/-- Witness for `claim_encrypt_roundtrip_amended` with toy key-derivation
and keystream functions, a two-byte payload and a salt that does not start
with the container magic. -/
theorem claim_encrypt_roundtrip_amended_witness :
    ([1, 2, 3, 4, 5, 6, 7, 8, 9, 10, 11, 12, 13, 14, 15, 16] : List Nat).length = 16 ∧
    ([0, 0, 0, 0, 0, 0, 0, 0, 0, 0, 0, 0, 0, 0, 0, 0] : List Nat).length = 16 ∧
    ([9] : List Nat) ≠ [] ∧
    (¬ ([1, 2, 3, 4, 5, 6, 7, 8, 9, 10, 11, 12, 13, 14, 15, 16] : List Nat).take 2 = [80, 75] →
      getOneFileBytes (fun p s => p ++ s) (fun k _ i => k.length + i) [9]
        (streamEncryptUpload (fun p s => p ++ s) (fun k _ i => k.length + i) [9]
          [1, 2, 3, 4, 5, 6, 7, 8, 9, 10, 11, 12, 13, 14, 15, 16]
          [0, 0, 0, 0, 0, 0, 0, 0, 0, 0, 0, 0, 0, 0, 0, 0] [5, 6]) = some [5, 6]) :=
  ⟨by decide, by decide, by decide,
    (claim_encrypt_roundtrip_amended (fun p s => p ++ s) (fun k _ i => k.length + i)
      [9] [1, 2, 3, 4, 5, 6, 7, 8, 9, 10, 11, 12, 13, 14, 15, 16]
      [0, 0, 0, 0, 0, 0, 0, 0, 0, 0, 0, 0, 0, 0, 0, 0] [5, 6]
      (by decide) (by decide) (by decide)).2.1⟩


-- ## User export parsing and redistribution (usersql.go)
--
-- The export is ASCII SQL; Go regexp's character class \s is embedded as
-- the explicit set [\t\n\f\r ] and case folding as ASCII case folding.
-- The four source regexes are embedded as deterministic leftmost scanners
-- over List Char.

-- quote characters, written via code points to keep source free of quote
-- literals
def bqChar : Char := Char.ofNat 96
def dqChar : Char := Char.ofNat 34
def sqChar : Char := Char.ofNat 39

/-- The regex character class `\s` of Go's RE2: `[\t\n\f\r ]`. -/
def isReSpace (c : Char) : Bool :=
  c = ' ' || c.toNat = 9 || c.toNat = 10 || c.toNat = 12 || c.toNat = 13

/-- ASCII whitespace as trimmed by `strings.TrimSpace` (the inputs are
ASCII SQL; the Unicode cases do not arise). -/
def isGoSpace (c : Char) : Bool :=
  c = ' ' || c.toNat = 9 || c.toNat = 10 || c.toNat = 11 || c.toNat = 12 || c.toNat = 13

def trimSpace (l : List Char) : List Char :=
  ((l.dropWhile isGoSpace).reverse.dropWhile isGoSpace).reverse

/-- The unquoted-identifier class of the source regexes:
`[a-zA-Z0-9$_\x{80}-\x{FFFF}]`. -/
def isIdentChar (c : Char) : Bool :=
  c.isAlpha || c.isDigit || c = '$' || c = '_' ||
    (128 ≤ c.toNat && c.toNat ≤ 65535)

def asciiUpper (c : Char) : Char :=
  if c.isLower then c.toUpper else c

/-- Split at the first occurrence of `q`: returns (before, after-q). -/
def splitAtChar (q : Char) : List Char → Option (List Char × List Char)
  | [] => none
  | c :: cs =>
    if c = q then some ([], cs)
    else (splitAtChar q cs).map fun p => (c :: p.1, p.2)

/-- Match a quoted token with non-empty content (`q[^q]+q`) at the current
position: returns (content, rest after closing quote). -/
def matchQuotedPlus (q : Char) : List Char → Option (List Char × List Char)
  | [] => none
  | c :: cs =>
    if c = q then
      match splitAtChar q cs with
      | some (content, rest) => if content = [] then none else some (content, rest)
      | none => none
    else none

/-- Match a quoted token with possibly-empty content (`q[^q]*q`). -/
def matchQuotedStar (q : Char) : List Char → Option (List Char × List Char)
  | [] => none
  | c :: cs => if c = q then splitAtChar q cs else none

/-- Match a maximal non-empty run of identifier characters. -/
def matchIdentRun (l : List Char) : Option (List Char × List Char) :=
  let tok := l.takeWhile isIdentChar
  if tok = [] then none else some (tok, l.dropWhile isIdentChar)

/-- One user/host/database token: backtick-quoted, double-quoted,
single-quoted, or unquoted — the four alternatives of the source regexes,
in their alternation order. -/
def matchToken (l : List Char) : Option (List Char × List Char) :=
  (matchQuotedPlus bqChar l).orElse fun _ =>
  (matchQuotedStar dqChar l |>.bind fun p => if p.1 = [] then none else some p).orElse fun _ =>
  (matchQuotedStar sqChar l |>.bind fun p => if p.1 = [] then none else some p).orElse fun _ =>
  matchIdentRun l

/-- Case-insensitive ASCII prefix match: returns the rest on success. -/
def ciPrefix : List Char → List Char → Option (List Char)
  | [], l => some l
  | _, [] => none
  | p :: ps, c :: cs => if asciiUpper p = asciiUpper c then ciPrefix ps cs else none

/-- `\s+`: at least one regex space. -/
def skipSpaces1 (l : List Char) : Option (List Char) :=
  match l with
  | c :: cs => if isReSpace c then some (cs.dropWhile isReSpace) else none
  | [] => none

/-- The full `userHostRe` pattern anchored at the current position:
token `\s*@\s*` token. -/
def matchUserHostAt (l : List Char) : Option (List Char × List Char) :=
  match matchToken l with
  | none => none
  | some (u, r1) =>
    match r1.dropWhile isReSpace with
    | c :: r2 =>
      if c = '@' then
        match matchToken (r2.dropWhile isReSpace) with
        | some (h, _) => some (u, h)
        | none => none
      else none
    | [] => none

/-- `userHostRe.FindStringSubmatch`: leftmost match, scanning start
positions left to right. -/
def findUserHost : List Char → Option (List Char × List Char)
  | [] => none
  | l@(_ :: tl) =>
    match matchUserHostAt l with
    | some r => some r
    | none => findUserHost tl

/-- The `identifiedByRe` pattern anchored at the current position:
`IDENTIFIED\s+BY\s+PASSWORD\s+` then one (possibly empty) quoted token.
Returns (captured password, rest after the whole match). -/
def matchIdentifiedByAt (l : List Char) : Option (List Char × List Char) := do
  let r1 ← ciPrefix ("IDENTIFIED".toList) l
  let r2 ← skipSpaces1 r1
  let r3 ← ciPrefix ("BY".toList) r2
  let r4 ← skipSpaces1 r3
  let r5 ← ciPrefix ("PASSWORD".toList) r4
  let r6 ← skipSpaces1 r5
  (matchQuotedStar bqChar r6).orElse fun _ =>
    (matchQuotedStar dqChar r6).orElse fun _ => matchQuotedStar sqChar r6

/-- `identifiedByRe.FindStringSubmatch`: leftmost scan; returns the
captured password. -/
def findIdentifiedBy : List Char → Option (List Char)
  | [] => none
  | l@(_ :: tl) =>
    match matchIdentifiedByAt l with
    | some r => some r.1
    | none => findIdentifiedBy tl

/-- The `grantOnDbRe` pattern anchored at the current position:
`ON\s+` token `\s*\.\s*\*`. -/
def matchGrantOnDbAt (l : List Char) : Option (List Char) := do
  let r1 ← ciPrefix ("ON".toList) l
  let r2 ← skipSpaces1 r1
  let (db, r3) ← matchToken r2
  match r3.dropWhile isReSpace with
  | c :: r4 =>
    if c = '.' then
      match r4.dropWhile isReSpace with
      | c2 :: _ => if c2 = '*' then some db else none
      | [] => none
    else none
  | [] => none

/-- `grantOnDbRe.FindStringSubmatch`: leftmost scan. -/
def findGrantOnDb : List Char → Option (List Char)
  | [] => none
  | l@(_ :: tl) =>
    match matchGrantOnDbAt l with
    | some db => some db
    | none => findGrantOnDb tl

/-- The `stripIdentRe` pattern anchored at the current position:
`\s*IDENTIFIED\s+BY\s+PASSWORD\s+` quoted-token; returns the rest after
the match. -/
def stripIdentAt (l : List Char) : Option (List Char) :=
  match matchIdentifiedByAt (l.dropWhile isReSpace) with
  | some r => some r.2
  | none => none

/-- `stripIdentRe.ReplaceAllString(s, "")`: delete every non-overlapping
leftmost match.  Fuel-driven (the fuel is the input length; every match
consumes at least one character). -/
def replaceAllStripIdent : Nat → List Char → List Char
  | 0, l => l
  | _ + 1, [] => []
  | fuel + 1, l@(c :: cs) =>
    match stripIdentAt l with
    | some rest => replaceAllStripIdent fuel rest
    | none => c :: replaceAllStripIdent fuel cs

def stripIdent (l : List Char) : List Char :=
  replaceAllStripIdent l.length l

/-- `bufio.Scanner` with `ScanLines`: split on newline, drop one trailing
carriage return per line, no final empty token. -/
def dropCR (l : List Char) : List Char :=
  match l.reverse with
  | c :: rest => if c.toNat = 13 then rest.reverse else l
  | [] => l

def splitLinesAux : List Char → List Char → List (List Char)
  | current, [] => if current = [] then [] else [dropCR current.reverse]
  | current, c :: cs =>
    if c.toNat = 10 then dropCR current.reverse :: splitLinesAux [] cs
    else splitLinesAux (c :: current) cs

def splitLines (l : List Char) : List (List Char) := splitLinesAux [] l

-- quick sanity checks
example : findUserHost ("CREATE USER ".toList ++ [sqChar] ++ "u1".toList ++ [sqChar, '@', sqChar] ++ [Char.ofNat 37] ++ [sqChar]) = some ("u1".toList, [Char.ofNat 37]) := by decide
example : findIdentifiedBy ("IDENTIFIED BY PASSWORD ".toList ++ [sqChar] ++ "x".toList ++ [sqChar]) = some ("x".toList) := by decide
example : findGrantOnDb ("GRANT ALL ON db1.* TO u1@h".toList) = some ("db1".toList) := by decide
example : stripIdent ("CREATE USER u1@h IDENTIFIED BY PASSWORD ".toList ++ [sqChar] ++ "x".toList ++ [sqChar] ++ ";".toList) = "CREATE USER u1@h;".toList := by decide
example : splitLines ("ab".toList ++ [Char.ofNat 10] ++ "cd".toList) = ["ab".toList, "cd".toList] := by decide

-- ### user records (usersql.go)

/-- One GRANT statement and the database it applies to (empty for a
global `ON *.*` grant). -/
structure GrantLine where
  raw : List Char
  db : List Char
deriving DecidableEq, Repr

/-- Parsed data for one user name: hosts (insertion-ordered, deduped),
first password, per-host password hashes, grant lines, database set. -/
structure UserRec where
  name : List Char
  hosts : List (List Char)
  password : List Char
  pwByHost : List (List Char × List Char)
  grants : List GrantLine
  dbs : List (List Char)
deriving DecidableEq, Repr

def newUserRec (nm : List Char) : UserRec := ⟨nm, [], [], [], [], []⟩

def addHost (u : UserRec) (h : List Char) : UserRec :=
  if u.hosts.contains h then u else { u with hosts := u.hosts ++ [h] }

def addDb (u : UserRec) (db : List Char) : UserRec :=
  if u.dbs.contains db then u else { u with dbs := u.dbs ++ [db] }

def lookupPw : List (List Char × List Char) → List Char → Option (List Char)
  | [], _ => none
  | (h0, p0) :: rest, h => if h0 = h then some p0 else lookupPw rest h

def updatePw : List (List Char × List Char) → List Char → List Char →
    List (List Char × List Char)
  | [], h, pw => [(h, pw)]
  | (h0, p0) :: rest, h, pw =>
    if h0 = h then (h0, pw) :: rest else (h0, p0) :: updatePw rest h pw

/-- `setPassword`: associates a hash with a host; an existing different
hash is a conflict — the first value is kept and `true` (the error) is
returned for the caller to log. -/
def setPassword (u : UserRec) (h pw : List Char) : UserRec × Bool :=
  if pw = [] then (u, false)
  else
    match lookupPw u.pwByHost h with
    | some prev =>
      if prev ≠ pw then (u, true)
      else ({ u with pwByHost := updatePw u.pwByHost h pw,
                     password := if u.password = [] then pw else u.password }, false)
    | none =>
      ({ u with pwByHost := u.pwByHost ++ [(h, pw)],
                password := if u.password = [] then pw else u.password }, false)

def hasDifferentPasswords (u : UserRec) : Bool :=
  match u.pwByHost with
  | [] => false
  | (_, p) :: rest => rest.any fun x => x.2 ≠ p

-- the users map (Go map keyed by name; modeled as an insertion-ordered
-- association list)

def findUser : List UserRec → List Char → Option UserRec
  | [], _ => none
  | v :: vs, nm => if v.name = nm then some v else findUser vs nm

def getUser (us : List UserRec) (nm : List Char) : UserRec :=
  (findUser us nm).getD (newUserRec nm)

def putUser : List UserRec → UserRec → List UserRec
  | [], u => [u]
  | v :: vs, u => if v.name = u.name then u :: vs else v :: putUser vs u

/-- A warning reported through the `warn` callback. -/
inductive ParseWarning where
  | pwConflict (name host : List Char) : ParseWarning
  | differingPw (name : List Char) : ParseWarning
deriving DecidableEq, Repr

/-- What `parseUserRecords` does with one line, factored out of the loop
body: skip it, process a `CREATE USER` line, or process a `GRANT` line. -/
inductive LineAction where
  | skipLine : LineAction
  | createU (name host : List Char) (pw : Option (List Char)) : LineAction
  | grantU (name host : List Char) (pw : Option (List Char)) (db : List Char)
      (raw : List Char) : LineAction
deriving DecidableEq, Repr

/-- The password the line associates (non-empty capture of
`identifiedByRe`, trimmed), if any. -/
def lineIdentPw (trimmed : List Char) : Option (List Char) :=
  match findIdentifiedBy trimmed with
  | some pw => if trimSpace pw = [] then none else some (trimSpace pw)
  | none => none

/-- The target database of a grant line: the trimmed `grantOnDbRe` capture,
with a bare `*` (global scope) giving the empty name. -/
def lineGrantDb (trimmed : List Char) : List Char :=
  match findGrantOnDb trimmed with
  | some db => if trimSpace db = [Char.ofNat 42] then [] else trimSpace db
  | none => []

/-- The line analysis of `parseUserRecords`: trim, recognize the statement
kind by upper-cased prefix, extract user-host (trimmed captures, both
required non-empty), password and (for grants) target database. -/
def lineView (line : List Char) : LineAction :=
  let trimmed := trimSpace line
  if trimmed = [] then LineAction.skipLine
  else
    let upper := trimmed.map asciiUpper
    if ("CREATE USER ".toList).isPrefixOf upper then
      match findUserHost trimmed with
      | none => LineAction.skipLine
      | some (nm, h) =>
        if trimSpace nm ≠ [] ∧ trimSpace h ≠ [] then
          LineAction.createU (trimSpace nm) (trimSpace h) (lineIdentPw trimmed)
        else LineAction.skipLine
    else if ("GRANT ".toList).isPrefixOf upper then
      match findUserHost trimmed with
      | none => LineAction.skipLine
      | some (nm, h) =>
        if trimSpace nm ≠ [] ∧ trimSpace h ≠ [] then
          LineAction.grantU (trimSpace nm) (trimSpace h) (lineIdentPw trimmed)
            (lineGrantDb trimmed) line
        else LineAction.skipLine
    else LineAction.skipLine

/-- State of the `parseUserRecords` loop: the user map and the warnings
issued so far through the callback. -/
structure ParseState where
  users : List UserRec
  warns : List ParseWarning
deriving DecidableEq, Repr

/-- One loop iteration of `parseUserRecords`, applying the analyzed line
to the state in source order: fetch-or-create the record, add the host,
set the password (warning on conflict), then for grants record the
database and append the raw grant line. -/
def applyPw (u : UserRec) (h : List Char) : Option (List Char) → UserRec × Bool
  | none => (u, false)
  | some p => setPassword u h p

def addGrant (u : UserRec) (g : GrantLine) : UserRec :=
  { u with grants := u.grants ++ [g] }

def parseStep (st : ParseState) (line : List Char) : ParseState :=
  match lineView line with
  | LineAction.skipLine => st
  | LineAction.createU nm h pw =>
    let r := applyPw (addHost (getUser st.users nm) h) h pw
    ⟨putUser st.users r.1,
      st.warns ++ (if r.2 then [ParseWarning.pwConflict nm h] else [])⟩
  | LineAction.grantU nm h pw db raw =>
    let r := applyPw (addHost (getUser st.users nm) h) h pw
    let u3 := if db ≠ [] then addDb r.1 db else r.1
    ⟨putUser st.users (addGrant u3 ⟨raw, db⟩),
      st.warns ++ (if r.2 then [ParseWarning.pwConflict nm h] else [])⟩

/-- `parseUserRecords`: scan the export line by line. -/
def parseUserRecords (lines : List (List Char)) : ParseState :=
  lines.foldl parseStep ⟨[], []⟩

/-- The password hash recorded for `nm@h` in the user map. -/
def pwAt (us : List UserRec) (nm h : List Char) : Option (List Char) :=
  match findUser us nm with
  | some u => lookupPw u.pwByHost h
  | none => none

/-- The credential hash a line carries for the pair `nm@h`, if any. -/
def lineCred (line nm h : List Char) : Option (List Char) :=
  match lineView line with
  | LineAction.skipLine => none
  | LineAction.createU n hh pw => if n = nm ∧ hh = h then pw else none
  | LineAction.grantU n hh pw _ _ => if n = nm ∧ hh = h then pw else none

/-- All credential hashes the input lines carry for `nm@h`, in line order. -/
def credsFor (lines : List (List Char)) (nm h : List Char) : List (List Char) :=
  lines.filterMap fun l => lineCred l nm h

-- helper lemmas on the association structures

theorem findUser_name : ∀ us nm u, findUser us nm = some u → u.name = nm := by
  intro us nm u h
  induction us with
  | nil => simp [findUser] at h
  | cons v vs ih =>
    unfold findUser at h
    split at h
    · cases h; assumption
    · exact ih h

theorem findUser_mem : ∀ us nm u, findUser us nm = some u → u ∈ us := by
  intro us nm u h
  induction us with
  | nil => simp [findUser] at h
  | cons v vs ih =>
    unfold findUser at h
    split at h
    · cases h; exact List.mem_cons_self _ _
    · exact List.mem_cons_of_mem _ (ih h)

theorem getUser_name (us : List UserRec) (nm : List Char) :
    (getUser us nm).name = nm := by
  unfold getUser
  cases hf : findUser us nm with
  | some u => simpa using findUser_name us nm u hf
  | none => rfl

theorem findUser_putUser_self (us : List UserRec) (u : UserRec) :
    findUser (putUser us u) u.name = some u := by
  induction us with
  | nil => simp [putUser, findUser]
  | cons v vs ih =>
    unfold putUser
    split
    · simp [findUser]
    · unfold findUser
      split
      · simp_all
      · exact ih

theorem findUser_putUser_other (us : List UserRec) (u : UserRec) (nm : List Char)
    (hne : u.name ≠ nm) : findUser (putUser us u) nm = findUser us nm := by
  induction us with
  | nil => simp [putUser, findUser, hne]
  | cons v vs ih =>
    unfold putUser
    split
    · unfold findUser
      rename_i hv
      simp [hne, hv]
    · unfold findUser
      split
      · rfl
      · exact ih

theorem putUser_mem (us : List UserRec) (u v : UserRec)
    (h : v ∈ putUser us u) : v = u ∨ v ∈ us := by
  induction us with
  | nil => simp [putUser] at h; exact Or.inl h
  | cons w ws ih =>
    unfold putUser at h
    split at h
    · rcases List.mem_cons.mp h with h1 | h1
      · exact Or.inl h1
      · exact Or.inr (List.mem_cons_of_mem _ h1)
    · rcases List.mem_cons.mp h with h1 | h1
      · exact Or.inr (h1 ▸ List.mem_cons_self _ _)
      · rcases ih h1 with h2 | h2
        · exact Or.inl h2
        · exact Or.inr (List.mem_cons_of_mem _ h2)

theorem getUser_cases (us : List UserRec) (nm : List Char) :
    getUser us nm ∈ us ∨ getUser us nm = newUserRec nm := by
  unfold getUser
  cases hf : findUser us nm with
  | some u => exact Or.inl (by simpa using findUser_mem us nm u hf)
  | none => exact Or.inr rfl

theorem lookupPw_getUser (us : List UserRec) (nm h : List Char) :
    lookupPw (getUser us nm).pwByHost h = pwAt us nm h := by
  unfold getUser pwAt
  cases hf : findUser us nm with
  | some u => rfl
  | none => rfl

theorem lookupPw_updatePw_self (l : List (List Char × List Char)) (h pw : List Char) :
    lookupPw (updatePw l h pw) h = some pw := by
  induction l with
  | nil => simp [updatePw, lookupPw]
  | cons x xs ih =>
    unfold updatePw
    split
    · rename_i hx
      simp [lookupPw, hx]
    · unfold lookupPw
      rename_i hx
      simp only [hx, if_false]
      exact ih

theorem lookupPw_updatePw_other (l : List (List Char × List Char)) (h0 pw h : List Char)
    (hne : h0 ≠ h) : lookupPw (updatePw l h0 pw) h = lookupPw l h := by
  induction l with
  | nil => simp [updatePw, lookupPw, hne]
  | cons x xs ih =>
    unfold updatePw
    split
    · rename_i hx
      unfold lookupPw
      simp [hx ▸ hne]
    · unfold lookupPw
      split
      · rfl
      · exact ih

theorem lookupPw_append_none (l : List (List Char × List Char)) (h pw : List Char)
    (hn : lookupPw l h = none) : lookupPw (l ++ [(h, pw)]) h = some pw := by
  induction l with
  | nil => simp [lookupPw]
  | cons x xs ih =>
    unfold lookupPw at hn ⊢
    split at hn
    · cases hn
    · rename_i hx
      simp only [List.cons_append, lookupPw, hx, if_false]
      exact ih hn

theorem lookupPw_append_other (l : List (List Char × List Char)) (h0 pw h : List Char)
    (hne : h0 ≠ h) : lookupPw (l ++ [(h0, pw)]) h = lookupPw l h := by
  induction l with
  | nil => simp [lookupPw, hne]
  | cons x xs ih =>
    simp only [List.cons_append, lookupPw]
    split
    · rfl
    · exact ih

theorem addHost_fields (u : UserRec) (h : List Char) :
    (addHost u h).name = u.name ∧ (addHost u h).pwByHost = u.pwByHost ∧
    (addHost u h).password = u.password ∧ (addHost u h).grants = u.grants ∧
    (addHost u h).dbs = u.dbs := by
  unfold addHost
  split <;> exact ⟨rfl, rfl, rfl, rfl, rfl⟩

theorem addDb_fields (u : UserRec) (db : List Char) :
    (addDb u db).name = u.name ∧ (addDb u db).pwByHost = u.pwByHost ∧
    (addDb u db).grants = u.grants ∧ (addDb u db).hosts = u.hosts := by
  unfold addDb
  split <;> exact ⟨rfl, rfl, rfl, rfl⟩

theorem setPassword_fields (u : UserRec) (h p : List Char) :
    (setPassword u h p).1.name = u.name ∧ (setPassword u h p).1.grants = u.grants ∧
    (setPassword u h p).1.dbs = u.dbs ∧ (setPassword u h p).1.hosts = u.hosts := by
  unfold setPassword
  split
  · exact ⟨rfl, rfl, rfl, rfl⟩
  · split
    · split
      · exact ⟨rfl, rfl, rfl, rfl⟩
      · exact ⟨rfl, rfl, rfl, rfl⟩
    · exact ⟨rfl, rfl, rfl, rfl⟩

theorem applyPw_fields (u : UserRec) (h : List Char) (pw : Option (List Char)) :
    (applyPw u h pw).1.name = u.name ∧ (applyPw u h pw).1.grants = u.grants ∧
    (applyPw u h pw).1.dbs = u.dbs ∧ (applyPw u h pw).1.hosts = u.hosts := by
  cases pw with
  | none => exact ⟨rfl, rfl, rfl, rfl⟩
  | some p => exact setPassword_fields u h p

theorem setPassword_lookup_self (u : UserRec) (h p : List Char) (hp : p ≠ []) :
    lookupPw (setPassword u h p).1.pwByHost h =
      some ((lookupPw u.pwByHost h).getD p) ∧
    ((setPassword u h p).2 = true ↔
      ∃ q, lookupPw u.pwByHost h = some q ∧ q ≠ p) := by
  unfold setPassword
  split
  · exact absurd (by assumption) hp
  · cases hf : lookupPw u.pwByHost h with
    | some prev =>
      simp only [hf]
      split
      · rename_i hne
        refine ⟨by simp [hf], ?_⟩
        simp only [true_iff]
        exact ⟨prev, rfl, hne⟩
      · rename_i hne
        push_neg at hne
        subst hne
        refine ⟨?_, ?_⟩
        · simp [lookupPw_updatePw_self, hf]
        · simp only [Bool.false_eq_true, false_iff]
          rintro ⟨q, hq1, hq2⟩
          cases hq1
          exact hq2 rfl
    | none =>
      simp only [hf]
      refine ⟨?_, ?_⟩
      · simp [lookupPw_append_none _ _ _ hf]
      · simp only [Bool.false_eq_true, false_iff]
        rintro ⟨q, hq1, hq2⟩
        cases hq1

theorem setPassword_lookup_other (u : UserRec) (h0 p h : List Char) (hne : h0 ≠ h) :
    lookupPw (setPassword u h0 p).1.pwByHost h = lookupPw u.pwByHost h := by
  unfold setPassword
  split
  · rfl
  · split
    · split
      · rfl
      · exact lookupPw_updatePw_other _ _ _ _ hne
    · exact lookupPw_append_other _ _ _ _ hne

theorem applyPw_lookup_other (u : UserRec) (h0 h : List Char)
    (pw : Option (List Char)) (hne : h0 ≠ h) :
    lookupPw (applyPw u h0 pw).1.pwByHost h = lookupPw u.pwByHost h := by
  cases pw with
  | none => rfl
  | some p => exact setPassword_lookup_other u h0 p h hne

theorem applyPw_lookup_some (u : UserRec) (h p : List Char) (hp : p ≠ []) :
    lookupPw (applyPw u h (some p)).1.pwByHost h =
      some ((lookupPw u.pwByHost h).getD p) ∧
    ((applyPw u h (some p)).2 = true ↔
      ∃ q, lookupPw u.pwByHost h = some q ∧ q ≠ p) := by
  exact setPassword_lookup_self u h p hp

theorem applyPw_none_snd (u : UserRec) (h : List Char) :
    (applyPw u h none).2 = false := rfl

theorem pwAt_putUser (us : List UserRec) (u : UserRec) (nm h : List Char) :
    pwAt (putUser us u) nm h =
      if u.name = nm then lookupPw u.pwByHost h else pwAt us nm h := by
  by_cases hn : u.name = nm
  · rw [if_pos hn]
    unfold pwAt
    rw [← hn, findUser_putUser_self]
  · rw [if_neg hn]
    unfold pwAt
    rw [findUser_putUser_other us u nm hn]

-- facts about lineView needed to drive the loop lemmas

theorem lineIdentPw_ne_nil (t p : List Char) (h : lineIdentPw t = some p) : p ≠ [] := by
  unfold lineIdentPw at h
  split at h
  · split at h
    · cases h
    · rename_i hne
      cases h
      exact hne
  · cases h

theorem lineView_createU_pw (line n hh : List Char) (pw : Option (List Char))
    (hv : lineView line = LineAction.createU n hh pw) :
    ∀ p, pw = some p → p ≠ [] := by
  intro p hp
  subst hp
  simp only [lineView] at hv
  split at hv
  · cases hv
  · split at hv
    · split at hv
      · cases hv
      · split at hv
        · injection hv with h1 h2 h3
          exact lineIdentPw_ne_nil _ _ h3
        · cases hv
    · split at hv
      · split at hv
        · cases hv
        · split at hv <;> cases hv
      · cases hv

theorem lineView_grantU_pw (line n hh db raw : List Char) (pw : Option (List Char))
    (hv : lineView line = LineAction.grantU n hh pw db raw) :
    (∀ p, pw = some p → p ≠ []) ∧ db = lineGrantDb (trimSpace line) ∧ raw = line := by
  simp only [lineView] at hv
  split at hv
  · cases hv
  · split at hv
    · split at hv
      · cases hv
      · split at hv <;> cases hv
    · split at hv
      · split at hv
        · cases hv
        · split at hv
          · injection hv with h1 h2 h3 h4 h5
            subst h3 h4 h5
            refine ⟨?_, rfl, rfl⟩
            intro p hp
            exact lineIdentPw_ne_nil _ _ hp
          · cases hv
      · cases hv

theorem mem_append_if (w w' : ParseWarning) (l : List ParseWarning) (b : Bool) :
    (w ∈ l ++ (if b then [w'] else []) ↔ w ∈ l ∨ (b = true ∧ w = w')) := by
  cases b <;> simp


theorem addGrant_fields (u : UserRec) (g : GrantLine) :
    (addGrant u g).name = u.name ∧ (addGrant u g).pwByHost = u.pwByHost ∧
    (addGrant u g).dbs = u.dbs ∧ (addGrant u g).hosts = u.hosts ∧
    (addGrant u g).password = u.password ∧ (addGrant u g).grants = u.grants ++ [g] :=
  ⟨rfl, rfl, rfl, rfl, rfl, rfl⟩

theorem parseStep_cred_none (st : ParseState) (line nm h : List Char)
    (hc : lineCred line nm h = none) :
    pwAt (parseStep st line).users nm h = pwAt st.users nm h ∧
    (ParseWarning.pwConflict nm h ∈ (parseStep st line).warns ↔
      ParseWarning.pwConflict nm h ∈ st.warns) := by
  cases hv : lineView line with
  | skipLine =>
    simp [parseStep, hv]
  | createU n hh pw =>
    simp only [lineCred, hv] at hc
    simp only [parseStep, hv]
    by_cases hn : n = nm ∧ hh = h
    · rw [if_pos hn] at hc
      obtain ⟨hn1, hn2⟩ := hn
      subst hn1
      subst hn2
      subst hc
      simp only [applyPw]
      constructor
      · rw [pwAt_putUser,
          if_pos (((addHost_fields _ _).1).trans (getUser_name _ _)),
          (addHost_fields _ _).2.1, lookupPw_getUser]
      · simp
    · rw [if_neg hn] at hc
      constructor
      · rw [pwAt_putUser]
        by_cases hname : n = nm
        · have hh2 : hh ≠ h := fun he => hn ⟨hname, he⟩
          rw [if_pos (((applyPw_fields _ _ _).1).trans
            (((addHost_fields _ _).1).trans ((getUser_name _ _).trans hname)))]
          rw [applyPw_lookup_other _ _ _ _ hh2, (addHost_fields _ _).2.1,
            lookupPw_getUser, hname]
        · rw [if_neg (fun he => hname (((((applyPw_fields _ _ _).1).trans
            (((addHost_fields _ _).1).trans (getUser_name _ _)))).symm.trans he))]
      · rw [mem_append_if]
        constructor
        · rintro (h1 | ⟨h1, h2⟩)
          · exact h1
          · exact absurd (by injection h2.symm with e1 e2; exact ⟨e1, e2⟩) hn
        · exact Or.inl
  | grantU n hh pw db raw =>
    simp only [lineCred, hv] at hc
    simp only [parseStep, hv]
    by_cases hdb : db ≠ []
    · rw [if_pos hdb]
      by_cases hn : n = nm ∧ hh = h
      ·
        rw [if_pos hn] at hc
        obtain ⟨hn1, hn2⟩ := hn
        subst hn1
        subst hn2
        subst hc
        simp only [applyPw]
        refine ⟨?_, by simp⟩
        rw [pwAt_putUser]
        first
        | rw [if_pos (((addGrant_fields _ _).1).trans (((addDb_fields _ _).1).trans
              (((addHost_fields _ _).1).trans (getUser_name _ _)))),
            (addGrant_fields _ _).2.1, (addDb_fields _ _).2.1,
            (addHost_fields _ _).2.1, lookupPw_getUser]
        | rw [if_pos (((addGrant_fields _ _).1).trans
              (((addHost_fields _ _).1).trans (getUser_name _ _))),
            (addGrant_fields _ _).2.1, (addHost_fields _ _).2.1, lookupPw_getUser]
      ·
        rw [if_neg hn] at hc
        refine ⟨?_, ?_⟩
        · rw [pwAt_putUser]
          by_cases hname : n = nm
          · have hh2 : hh ≠ h := fun he => hn ⟨hname, he⟩
            first
            | rw [if_pos (((addGrant_fields _ _).1).trans (((addDb_fields _ _).1).trans
                  (((applyPw_fields _ _ _).1).trans (((addHost_fields _ _).1).trans
                    ((getUser_name _ _).trans hname))))),
                (addGrant_fields _ _).2.1, (addDb_fields _ _).2.1,
                applyPw_lookup_other _ _ _ _ hh2, (addHost_fields _ _).2.1,
                lookupPw_getUser, hname]
            | rw [if_pos (((addGrant_fields _ _).1).trans (((applyPw_fields _ _ _).1).trans
                  (((addHost_fields _ _).1).trans ((getUser_name _ _).trans hname)))),
                (addGrant_fields _ _).2.1, applyPw_lookup_other _ _ _ _ hh2,
                (addHost_fields _ _).2.1, lookupPw_getUser, hname]
          · first
            | rw [if_neg (fun he => hname ((((addGrant_fields _ _).1).trans
                  (((addDb_fields _ _).1).trans (((applyPw_fields _ _ _).1).trans
                    (((addHost_fields _ _).1).trans (getUser_name _ _))))).symm.trans he))]
            | rw [if_neg (fun he => hname ((((addGrant_fields _ _).1).trans
                  (((applyPw_fields _ _ _).1).trans (((addHost_fields _ _).1).trans
                    (getUser_name _ _)))).symm.trans he))]
        · rw [mem_append_if]
          constructor
          · rintro (h1 | ⟨h1, h2⟩)
            · exact h1
            · exact absurd (by injection h2.symm with e1 e2; exact ⟨e1, e2⟩) hn
          · exact Or.inl
    · rw [if_neg hdb]
      by_cases hn : n = nm ∧ hh = h
      ·
        rw [if_pos hn] at hc
        obtain ⟨hn1, hn2⟩ := hn
        subst hn1
        subst hn2
        subst hc
        simp only [applyPw]
        refine ⟨?_, by simp⟩
        rw [pwAt_putUser]
        first
        | rw [if_pos (((addGrant_fields _ _).1).trans (((addDb_fields _ _).1).trans
              (((addHost_fields _ _).1).trans (getUser_name _ _)))),
            (addGrant_fields _ _).2.1, (addDb_fields _ _).2.1,
            (addHost_fields _ _).2.1, lookupPw_getUser]
        | rw [if_pos (((addGrant_fields _ _).1).trans
              (((addHost_fields _ _).1).trans (getUser_name _ _))),
            (addGrant_fields _ _).2.1, (addHost_fields _ _).2.1, lookupPw_getUser]
      ·
        rw [if_neg hn] at hc
        refine ⟨?_, ?_⟩
        · rw [pwAt_putUser]
          by_cases hname : n = nm
          · have hh2 : hh ≠ h := fun he => hn ⟨hname, he⟩
            first
            | rw [if_pos (((addGrant_fields _ _).1).trans (((addDb_fields _ _).1).trans
                  (((applyPw_fields _ _ _).1).trans (((addHost_fields _ _).1).trans
                    ((getUser_name _ _).trans hname))))),
                (addGrant_fields _ _).2.1, (addDb_fields _ _).2.1,
                applyPw_lookup_other _ _ _ _ hh2, (addHost_fields _ _).2.1,
                lookupPw_getUser, hname]
            | rw [if_pos (((addGrant_fields _ _).1).trans (((applyPw_fields _ _ _).1).trans
                  (((addHost_fields _ _).1).trans ((getUser_name _ _).trans hname)))),
                (addGrant_fields _ _).2.1, applyPw_lookup_other _ _ _ _ hh2,
                (addHost_fields _ _).2.1, lookupPw_getUser, hname]
          · first
            | rw [if_neg (fun he => hname ((((addGrant_fields _ _).1).trans
                  (((addDb_fields _ _).1).trans (((applyPw_fields _ _ _).1).trans
                    (((addHost_fields _ _).1).trans (getUser_name _ _))))).symm.trans he))]
            | rw [if_neg (fun he => hname ((((addGrant_fields _ _).1).trans
                  (((applyPw_fields _ _ _).1).trans (((addHost_fields _ _).1).trans
                    (getUser_name _ _)))).symm.trans he))]
        · rw [mem_append_if]
          constructor
          · rintro (h1 | ⟨h1, h2⟩)
            · exact h1
            · exact absurd (by injection h2.symm with e1 e2; exact ⟨e1, e2⟩) hn
          · exact Or.inl

theorem parseStep_cred_some (st : ParseState) (line nm h p : List Char)
    (hc : lineCred line nm h = some p) :
    pwAt (parseStep st line).users nm h = some ((pwAt st.users nm h).getD p) ∧
    (ParseWarning.pwConflict nm h ∈ (parseStep st line).warns ↔
      ParseWarning.pwConflict nm h ∈ st.warns ∨
        ∃ q, pwAt st.users nm h = some q ∧ q ≠ p) := by
  cases hv : lineView line with
  | skipLine =>
    rw [lineCred, hv] at hc
    cases hc
  | createU n hh pw =>
    simp only [lineCred, hv] at hc
    simp only [parseStep, hv]
    by_cases hn : n = nm ∧ hh = h
    ·
      rw [if_pos hn] at hc
      obtain ⟨hn1, hn2⟩ := hn
      subst hn1
      subst hn2
      subst hc
      have hp : p ≠ [] := lineView_createU_pw line n hh (some p) hv p rfl
      have hiff := (applyPw_lookup_some (addHost (getUser st.users n) hh) hh p hp).2
      rw [(addHost_fields _ _).2.1, lookupPw_getUser] at hiff
      refine ⟨?_, ?_⟩
      · rw [pwAt_putUser,
          if_pos (((applyPw_fields _ _ _).1).trans
            (((addHost_fields _ _).1).trans (getUser_name _ _))),
          (applyPw_lookup_some _ _ _ hp).1, (addHost_fields _ _).2.1, lookupPw_getUser]
      · rw [mem_append_if]
        constructor
        · rintro (h1 | ⟨h1, h2⟩)
          · exact Or.inl h1
          · exact Or.inr (hiff.mp h1)
        · rintro (h1 | hex)
          · exact Or.inl h1
          · exact Or.inr ⟨hiff.mpr hex, rfl⟩
    · rw [if_neg hn] at hc
      cases hc
  | grantU n hh pw db raw =>
    simp only [lineCred, hv] at hc
    simp only [parseStep, hv]
    by_cases hn : n = nm ∧ hh = h
    · by_cases hdb : db ≠ []
      · rw [if_pos hdb]
        rw [if_pos hn] at hc
        obtain ⟨hn1, hn2⟩ := hn
        subst hn1
        subst hn2
        subst hc
        have hp : p ≠ [] := (lineView_grantU_pw line n hh db raw (some p) hv).1 p rfl
        have hiff := (applyPw_lookup_some (addHost (getUser st.users n) hh) hh p hp).2
        rw [(addHost_fields _ _).2.1, lookupPw_getUser] at hiff
        refine ⟨?_, ?_⟩
        · rw [pwAt_putUser]
          first
          | rw [if_pos (((addGrant_fields _ _).1).trans (((addDb_fields _ _).1).trans
                (((applyPw_fields _ _ _).1).trans (((addHost_fields _ _).1).trans
                  (getUser_name _ _))))),
              (addGrant_fields _ _).2.1, (addDb_fields _ _).2.1,
              (applyPw_lookup_some _ _ _ hp).1, (addHost_fields _ _).2.1, lookupPw_getUser]
          | rw [if_pos (((addGrant_fields _ _).1).trans (((applyPw_fields _ _ _).1).trans
                (((addHost_fields _ _).1).trans (getUser_name _ _)))),
              (addGrant_fields _ _).2.1, (applyPw_lookup_some _ _ _ hp).1,
              (addHost_fields _ _).2.1, lookupPw_getUser]
        · rw [mem_append_if]
          constructor
          · rintro (h1 | ⟨h1, h2⟩)
            · exact Or.inl h1
            · exact Or.inr (hiff.mp h1)
          · rintro (h1 | hex)
            · exact Or.inl h1
            · exact Or.inr ⟨hiff.mpr hex, rfl⟩
      · rw [if_neg hdb]
        rw [if_pos hn] at hc
        obtain ⟨hn1, hn2⟩ := hn
        subst hn1
        subst hn2
        subst hc
        have hp : p ≠ [] := (lineView_grantU_pw line n hh db raw (some p) hv).1 p rfl
        have hiff := (applyPw_lookup_some (addHost (getUser st.users n) hh) hh p hp).2
        rw [(addHost_fields _ _).2.1, lookupPw_getUser] at hiff
        refine ⟨?_, ?_⟩
        · rw [pwAt_putUser]
          first
          | rw [if_pos (((addGrant_fields _ _).1).trans (((addDb_fields _ _).1).trans
                (((applyPw_fields _ _ _).1).trans (((addHost_fields _ _).1).trans
                  (getUser_name _ _))))),
              (addGrant_fields _ _).2.1, (addDb_fields _ _).2.1,
              (applyPw_lookup_some _ _ _ hp).1, (addHost_fields _ _).2.1, lookupPw_getUser]
          | rw [if_pos (((addGrant_fields _ _).1).trans (((applyPw_fields _ _ _).1).trans
                (((addHost_fields _ _).1).trans (getUser_name _ _)))),
              (addGrant_fields _ _).2.1, (applyPw_lookup_some _ _ _ hp).1,
              (addHost_fields _ _).2.1, lookupPw_getUser]
        · rw [mem_append_if]
          constructor
          · rintro (h1 | ⟨h1, h2⟩)
            · exact Or.inl h1
            · exact Or.inr (hiff.mp h1)
          · rintro (h1 | hex)
            · exact Or.inl h1
            · exact Or.inr ⟨hiff.mpr hex, rfl⟩
    · rw [if_neg hn] at hc
      cases hc

theorem parse_fold_pw (nm h : List Char) :
    ∀ (lines : List (List Char)) (st : ParseState) (cs : List (List Char)),
      pwAt st.users nm h = cs.head? →
      (ParseWarning.pwConflict nm h ∈ st.warns ↔ ∃ p ∈ cs, cs.head? ≠ some p) →
      pwAt (lines.foldl parseStep st).users nm h = (cs ++ credsFor lines nm h).head? ∧
      (ParseWarning.pwConflict nm h ∈ (lines.foldl parseStep st).warns ↔
        ∃ p ∈ cs ++ credsFor lines nm h, (cs ++ credsFor lines nm h).head? ≠ some p) := by
  intro lines
  induction lines with
  | nil =>
    intro st cs h1 h2
    simpa [credsFor] using ⟨h1, h2⟩
  | cons l rest ih =>
    intro st cs h1 h2
    cases hc : lineCred l nm h with
    | none =>
      have hstep := parseStep_cred_none st l nm h hc
      have hcr : credsFor (l :: rest) nm h = credsFor rest nm h := by
        simp [credsFor, List.filterMap_cons, hc]
      rw [List.foldl_cons, hcr]
      exact ih (parseStep st l) cs (hstep.1.trans h1) (hstep.2.trans h2)
    | some p =>
      have hstep := parseStep_cred_some st l nm h p hc
      have hcr : credsFor (l :: rest) nm h = p :: credsFor rest nm h := by
        simp [credsFor, List.filterMap_cons, hc]
      rw [List.foldl_cons, hcr]
      have h1x : pwAt (parseStep st l).users nm h = (cs ++ [p]).head? := by
        rw [hstep.1, h1]
        cases cs <;> simp
      have h2x : ParseWarning.pwConflict nm h ∈ (parseStep st l).warns ↔
          ∃ q ∈ cs ++ [p], (cs ++ [p]).head? ≠ some q := by
        rw [hstep.2, h2, h1]
        cases cs with
        | nil => simp
        | cons c cs0 =>
          simp only [List.cons_append, List.head?_cons, List.mem_append,
            List.mem_cons, List.mem_singleton, Option.some.injEq, ne_eq,
            List.not_mem_nil, false_or, or_false]
          constructor
          · rintro (⟨x, hx, hne⟩ | ⟨q, rfl, hne⟩)
            · rcases hx with hx | hx
              · exact ⟨x, Or.inl hx, hne⟩
              · exact ⟨x, Or.inr (Or.inl hx), hne⟩
            · exact ⟨p, Or.inr (Or.inr rfl), hne⟩
          · rintro ⟨x, hx, hne⟩
            rcases hx with rfl | hx | rfl
            · exact absurd rfl hne
            · exact Or.inl ⟨x, Or.inr hx, hne⟩
            · exact Or.inr ⟨c, rfl, hne⟩
      have hfin := ih (parseStep st l) (cs ++ [p]) h1x h2x
      simpa [List.append_assoc] using hfin

/-- C6: when the same account@host pair carries different credential hashes
across input lines, the first-seen hash wins — the recorded hash for the
pair is always the first credential the input carries for it, and a
password-conflict warning for the pair is issued through the callback
exactly when some later line carries a different hash.  Parsing is a total
function over all input lines, so a conflict never aborts it. -/
theorem claim_pw_conflict_first_wins (sql nm h : List Char) :
    pwAt (parseUserRecords (splitLines sql)).users nm h =
      (credsFor (splitLines sql) nm h).head? ∧
    (ParseWarning.pwConflict nm h ∈ (parseUserRecords (splitLines sql)).warns ↔
      ∃ p ∈ credsFor (splitLines sql) nm h,
        (credsFor (splitLines sql) nm h).head? ≠ some p) := by
  have hfin := parse_fold_pw nm h (splitLines sql) ⟨[], []⟩ [] rfl (by simp)
  simpa [parseUserRecords] using hfin

-- trimSpace is idempotent (needed because the redistribution loop re-trims
-- database names that the parser already stored trimmed)

theorem dropWhile_dropWhile (p : Char → Bool) (l : List Char) :
    (l.dropWhile p).dropWhile p = l.dropWhile p := by
  induction l with
  | nil => rfl
  | cons c cs ih =>
    by_cases hc : p c
    · rw [List.dropWhile_cons_of_pos hc]
      exact ih
    · rw [List.dropWhile_cons_of_neg hc, List.dropWhile_cons_of_neg hc]

theorem dropWhile_head_false (p : Char → Bool) (c : Char) (cs : List Char)
    (h : (c :: cs).dropWhile p = c :: cs) : p c = false := by
  by_cases hp : p c
  · rw [List.dropWhile_cons_of_pos hp] at h
    have hlen : (cs.dropWhile p).length ≤ cs.length := (List.dropWhile_sublist _).length_le
    rw [h] at hlen
    simp at hlen
  · exact Bool.not_eq_true _ ▸ (by simpa using hp)

theorem dropWhile_suffix_self (p : Char → Bool) (l : List Char) :
    l.dropWhile p <:+ l := by
  induction l with
  | nil => exact List.suffix_refl _
  | cons c cs ih =>
    by_cases hc : p c
    · rw [List.dropWhile_cons_of_pos hc]
      exact ih.trans (List.suffix_cons c cs)
    · rw [List.dropWhile_cons_of_neg hc]

theorem dropWhile_of_isPrefix (p : Char → Bool) (t a : List Char)
    (ht : t <+: a) (ha : a.dropWhile p = a) : t.dropWhile p = t := by
  cases t with
  | nil => rfl
  | cons c cs =>
    obtain ⟨r, hr⟩ := ht
    have hc : p c = false := by
      apply dropWhile_head_false p c (cs ++ r)
      rw [List.cons_append] at hr
      rw [hr]
      exact ha
    rw [List.dropWhile_cons_of_neg (by simp [hc])]

theorem trimSpace_trimSpace (l : List Char) :
    trimSpace (trimSpace l) = trimSpace l := by
  unfold trimSpace
  have ha : (l.dropWhile isGoSpace).dropWhile isGoSpace = l.dropWhile isGoSpace :=
    dropWhile_dropWhile _ _
  have hpre : ((l.dropWhile isGoSpace).reverse.dropWhile isGoSpace).reverse <+:
      l.dropWhile isGoSpace := by
    apply List.reverse_suffix.mp
    rw [List.reverse_reverse]
    exact dropWhile_suffix_self _ _
  have hstep1 : (((l.dropWhile isGoSpace).reverse.dropWhile isGoSpace).reverse).dropWhile
      isGoSpace = ((l.dropWhile isGoSpace).reverse.dropWhile isGoSpace).reverse :=
    dropWhile_of_isPrefix _ _ _ hpre ha
  rw [hstep1, List.reverse_reverse, dropWhile_dropWhile]

theorem lineGrantDb_trimmed (t : List Char) :
    trimSpace (lineGrantDb t) = lineGrantDb t := by
  unfold lineGrantDb
  split
  · split
    · rfl
    · exact trimSpace_trimSpace _
  · rfl

/-- Invariant on a parsed user record: every database name in `dbs` is a
trimmed non-empty name that one of the record's grant lines targets. -/
def DbsOk (u : UserRec) : Prop :=
  ∀ x ∈ u.dbs, trimSpace x = x ∧ x ≠ [] ∧ ∃ g ∈ u.grants, g.db = x

theorem dbsOk_newUserRec (nm : List Char) : DbsOk (newUserRec nm) := by
  intro x hx
  simp [newUserRec] at hx

theorem dbsOk_addHost (u : UserRec) (h : List Char) (hu : DbsOk u) :
    DbsOk (addHost u h) := by
  intro x hx
  rw [(addHost_fields u h).2.2.2.2] at hx
  rw [(addHost_fields u h).2.2.2.1]
  exact hu x hx

theorem dbsOk_applyPw (u : UserRec) (h : List Char) (pw : Option (List Char))
    (hu : DbsOk u) : DbsOk (applyPw u h pw).1 := by
  intro x hx
  rw [(applyPw_fields u h pw).2.2.1] at hx
  rw [(applyPw_fields u h pw).2.1]
  exact hu x hx

theorem dbsOk_getUser (us : List UserRec) (nm : List Char)
    (hus : ∀ u ∈ us, DbsOk u) : DbsOk (getUser us nm) := by
  rcases getUser_cases us nm with hmem | hnew
  · exact hus _ hmem
  · rw [hnew]
    exact dbsOk_newUserRec nm

theorem dbsOk_addGrant_addDb (u : UserRec) (db raw : List Char)
    (htr : trimSpace db = db) (hu : DbsOk u) :
    DbsOk (addGrant (if db ≠ [] then addDb u db else u) ⟨raw, db⟩) := by
  by_cases hdb : db ≠ []
  · rw [if_pos hdb]
    intro x hx
    rw [(addGrant_fields _ _).2.2.1] at hx
    rw [(addGrant_fields _ _).2.2.2.2.2, (addDb_fields _ _).2.2.1]
    unfold addDb at hx
    split at hx
    · rcases hu x hx with ⟨h1, h2, g, hg1, hg2⟩
      exact ⟨h1, h2, g, List.mem_append_left _ hg1, hg2⟩
    · have hx2 : x ∈ u.dbs ++ [db] := hx
      rcases List.mem_append.mp hx2 with hx1 | hx1
      · rcases hu x hx1 with ⟨h1, h2, g, hg1, hg2⟩
        exact ⟨h1, h2, g, List.mem_append_left _ hg1, hg2⟩
      · have hxdb : x = db := by simpa using hx1
        subst hxdb
        exact ⟨htr, hdb, ⟨raw, x⟩, List.mem_append_right _ (by simp), rfl⟩
  · rw [if_neg hdb]
    intro x hx
    rw [(addGrant_fields _ _).2.2.1] at hx
    rw [(addGrant_fields _ _).2.2.2.2.2]
    rcases hu x hx with ⟨h1, h2, g, hg1, hg2⟩
    exact ⟨h1, h2, g, List.mem_append_left _ hg1, hg2⟩

theorem dbsOk_parseStep (st : ParseState) (line : List Char)
    (hus : ∀ u ∈ st.users, DbsOk u) :
    ∀ u ∈ (parseStep st line).users, DbsOk u := by
  cases hv : lineView line with
  | skipLine =>
    simp only [parseStep, hv]
    exact hus
  | createU n hh pw =>
    simp only [parseStep, hv]
    intro u hu
    rcases putUser_mem _ _ _ hu with rfl | hmem
    · exact dbsOk_applyPw _ _ _ (dbsOk_addHost _ _ (dbsOk_getUser _ _ hus))
    · exact hus u hmem
  | grantU n hh pw db raw =>
    have htr : trimSpace db = db := by
      rw [((lineView_grantU_pw line n hh db raw pw hv).2.1 : db = _)]
      exact lineGrantDb_trimmed _
    simp only [parseStep, hv]
    intro u hu
    rcases putUser_mem _ _ _ hu with rfl | hmem
    · exact dbsOk_addGrant_addDb _ _ _ htr
        (dbsOk_applyPw _ _ _ (dbsOk_addHost _ _ (dbsOk_getUser _ _ hus)))
    · exact hus u hmem

theorem dbsOk_parseUserRecords (lines : List (List Char)) :
    ∀ u ∈ (parseUserRecords lines).users, DbsOk u := by
  unfold parseUserRecords
  have hgen : ∀ (ls : List (List Char)) (st : ParseState),
      (∀ u ∈ st.users, DbsOk u) → ∀ u ∈ (ls.foldl parseStep st).users, DbsOk u := by
    intro ls
    induction ls with
    | nil => intro st h; exact h
    | cons l rest ih =>
      intro st h
      rw [List.foldl_cons]
      exact ih _ (dbsOk_parseStep st l h)
  exact hgen lines ⟨[], []⟩ (by intro u hu; cases hu)

-- ### ParseUserSQL: per-database redistribution of the parsed records

/-- `escapeSQL`: double every backslash, then double every single quote
(two sequential single-character ReplaceAll passes). -/
def escapeSQL (s : List Char) : List Char :=
  (s.flatMap fun c => if c = '\\' then ['\\', '\\'] else [c]).flatMap
    fun c => if c = sqChar then [sqChar, sqChar] else [c]

/-- One `CREATE USER IF NOT EXISTS` output line for `name@host`, with the
password clause exactly when the record carries a password hash. -/
def createLine (nm h pass : List Char) : List Char :=
  if pass ≠ [] then
    "CREATE USER IF NOT EXISTS ".toList ++
      ([sqChar] ++ escapeSQL nm ++ [sqChar, '@', sqChar] ++ escapeSQL h ++
        [sqChar] ++ " IDENTIFIED BY PASSWORD ".toList ++ [sqChar] ++
        escapeSQL pass ++ [sqChar, ';', '\n'])
  else
    "CREATE USER IF NOT EXISTS ".toList ++
      ([sqChar] ++ escapeSQL nm ++ [sqChar, '@', sqChar] ++ escapeSQL h ++
        [sqChar, ';', '\n'])

/-- One output grant line: strip the password clause, trim, drop if empty,
ensure a terminating semicolon, append a newline. -/
def grantRender (g : GrantLine) : Option (List Char) :=
  let stripped := trimSpace (stripIdent g.raw)
  if stripped = [] then none
  else some ((if stripped.getLast? = some ';' then stripped
              else stripped ++ [';']) ++ ['\n'])

/-- The lines of one user's block for one database: a creation statement
per host, then the user's grant lines that target this database. -/
def blockLines (u : UserRec) (db : List Char) : List (List Char) :=
  (u.hosts.map fun h => createLine u.name h u.password) ++
    u.grants.filterMap fun g => if g.db = db then grantRender g else none

def blockString (u : UserRec) (db : List Char) : List Char :=
  (blockLines u db).flatten

/-- The contributions to database `db`'s fragment: for every user with at
least one database, its (re-trimmed, non-empty) database names equal to
`db` each contribute the user's non-empty block.  The enclosing Go map is
iterated in unspecified order, so contributions are kept as a list in the
model's record order and the claims proved about them are
order-independent. -/
def fragContribs (users : List UserRec) (db : List Char) :
    List (UserRec × List Char) :=
  users.flatMap fun u =>
    if u.dbs = [] then []
    else
      u.dbs.filterMap fun db0 =>
        if trimSpace db0 = [] then none
        else if trimSpace db0 = db then
          (if blockString u (trimSpace db0) = [] then none
           else some (u, blockString u (trimSpace db0)))
        else none

/-- `ParseUserSQL` restricted to one database name: empty input yields the
empty map, otherwise the parsed records are redistributed. -/
def ParseUserSQLFragment (sql db : List Char) : List (UserRec × List Char) :=
  if sql = [] then []
  else fragContribs (parseUserRecords (splitLines sql)).users db

theorem createLine_starts_conditional (nm h pass : List Char) :
    "CREATE USER IF NOT EXISTS ".toList <+: createLine nm h pass := by
  unfold createLine
  split
  · exact ⟨_, rfl⟩
  · exact ⟨_, rfl⟩

/-- C5: every contribution to a database fragment of the redistributed user
export comes from an account whose database set is non-empty and contains
that database backed by one of its own grant lines (so a global-only
account appears in no fragment, and an account appears only in fragments
of databases it holds a grant on); the contributed block consists of the
account's creation statements — each of conditional idempotent
`CREATE USER IF NOT EXISTS` form — and only that database's grant lines of
this account. -/
theorem claim_user_redistribution (sql db : List Char) (u : UserRec) (s : List Char)
    (hmem : (u, s) ∈ ParseUserSQLFragment sql db) :
    u.dbs ≠ [] ∧ db ∈ u.dbs ∧ (∃ g ∈ u.grants, g.db = db) ∧
    s = blockString u db ∧
    ∀ l ∈ blockLines u db,
      (∃ h ∈ u.hosts, l = createLine u.name h u.password ∧
        "CREATE USER IF NOT EXISTS ".toList <+: l) ∨
      ∃ g ∈ u.grants, g.db = db ∧ grantRender g = some l := by
  unfold ParseUserSQLFragment at hmem
  split at hmem
  · cases hmem
  · obtain ⟨u0, hu0, hin⟩ := List.mem_flatMap.mp hmem
    split at hin
    · cases hin
    · rename_i hdbs
      obtain ⟨db0, hdb0, hsome⟩ := List.mem_filterMap.mp hin
      split at hsome
      · cases hsome
      · rename_i htr0
        split at hsome
        · rename_i htreq
          split at hsome
          · cases hsome
          · rename_i hbne
            injection hsome with hpair
            injection hpair with he1 he2
            subst he1
            rcases dbsOk_parseUserRecords (splitLines sql) u0 hu0 db0 hdb0 with
              ⟨htrim, hne0, g0, hg0, hgdb0⟩
            have hdb0eq : db0 = db := by rw [← htreq, htrim]
            subst hdb0eq
            rw [htrim] at he2
            subst he2
            refine ⟨hdbs, hdb0, ⟨g0, hg0, hgdb0⟩, rfl, ?_⟩
            intro l hl
            rcases List.mem_append.mp hl with hl1 | hl1
            · obtain ⟨h, hh, rfl⟩ := List.mem_map.mp hl1
              exact Or.inl ⟨h, hh, rfl, createLine_starts_conditional _ _ _⟩
            · obtain ⟨g, hg, hgr⟩ := List.mem_filterMap.mp hl1
              by_cases hgd : g.db = db0
              · rw [if_pos hgd] at hgr
                exact Or.inr ⟨g, hg, hgd, hgr⟩
              · rw [if_neg hgd] at hgr
                cases hgr
        · cases hsome

def wSql : List Char :=
  "CREATE USER ".toList ++ [sqChar] ++ "alice".toList ++ [sqChar] ++ "@".toList ++
    [sqChar] ++ "%".toList ++ [sqChar] ++ " IDENTIFIED BY PASSWORD ".toList ++
    [sqChar] ++ "hashA".toList ++ [sqChar] ++ ";\n".toList ++
  "GRANT ALL PRIVILEGES ON db1.* TO ".toList ++ [sqChar] ++ "alice".toList ++
    [sqChar] ++ "@".toList ++ [sqChar] ++ "%".toList ++ [sqChar] ++ ";".toList

def wUsers : List UserRec := (parseUserRecords (splitLines wSql)).users

def wU : UserRec := getUser wUsers ("alice".toList)

def wDb : List Char := "db1".toList

def wS : List Char := blockString wU wDb

theorem claim_user_redistribution_witness :
    (wU, wS) ∈ ParseUserSQLFragment wSql wDb ∧
    (wU.dbs ≠ [] ∧ wDb ∈ wU.dbs ∧ (∃ g ∈ wU.grants, g.db = wDb) ∧
      wS = blockString wU wDb ∧
      ∀ l ∈ blockLines wU wDb,
        (∃ h ∈ wU.hosts, l = createLine wU.name h wU.password ∧
          "CREATE USER IF NOT EXISTS ".toList <+: l) ∨
        ∃ g ∈ wU.grants, g.db = wDb ∧ grantRender g = some l) :=
  ⟨by decide, claim_user_redistribution wSql wDb wU wS (by decide)⟩
